import Mathlib

/-!
RooFitResult: correlation-matrix extraction and lookup.

A shallow embedding of `roofitcore/src/RooFitResult.cxx`.

* The definitions are generic in the arithmetic of `Double_t`: any type with `0`, `*`, `/` and
  an absolute value (`Fabs`); `TMath::Sqrt` is not part of the file and is the parameter `Sqrt`.
  `Double` is the IEEE 754 binary64 arithmetic, with overflow, underflow and rounding; an
  ordered field, `ℝ` with `Real.sqrt` in particular, is the arithmetic without them.
* `Int_t` loop counters and packed indices range over `1..fNpar`, so they are natural numbers;
  `fNpar` itself is an integer because the first guard compares it with `1`.
* A C array of MINUIT is a list; reading or writing past its end is a failure (`none`).
* A null pointer that is dereferenced is a failure (`none`); a null pointer that is returned
  is the inner `none` of the result.
* `RooArgList`, `RooRealVar`, `TList` and `TMinuit` are declared outside this file; only the
  members the file uses are modelled.
-/

namespace RooFit

/-- Modelled from the spec: `RooRealVar` is declared outside the file. A parameter snapshot,
a name, a display label and a value. -/
structure RooRealVar (α : Type) where
  name : String
  title : String
  val : α

/-- Modelled from the spec: `RooArgList` is declared outside the file. An ordered, named
collection of snapshots; the same name may occur more than once. -/
structure RooArgList (α : Type) where
  name : String
  list : List (RooRealVar α)

/-- Modelled from the spec: `RooRealVar::setVal` stores the value. -/
def RooRealVar.setVal {α : Type} (v : RooRealVar α) (x : α) : RooRealVar α :=
  { v with val := x }

/-- Modelled from the spec: `RooArgList::addOwned` appends an element. -/
def RooArgList.addOwned {α : Type} (l : RooArgList α) (x : RooRealVar α) : RooArgList α :=
  { l with list := l.list ++ [x] }

/-- Position of the first element called `name`. -/
def findPos {α : Type} (name : String) : List (RooRealVar α) → Option Nat
  | [] => none
  | x :: xs => if x.name = name then some 0 else (findPos name xs).map (· + 1)

/-- Modelled from the spec: `RooArgList::find` returns the first element with the given name,
or null. The returned element pointer is represented by the position of the element. -/
def RooArgList.find {α : Type} (l : RooArgList α) (name : String) : Option Nat :=
  findPos name l.list

/-- Modelled from the spec: `RooArgList::index` of an element pointer obtained from `find`
is the position of that element. -/
def RooArgList.index {α : Type} (_l : RooArgList α) (arg : Nat) : Nat := arg

/-- Modelled from the spec: `RooArgList::at` returns the element at a position, or null. -/
def RooArgList.at {α : Type} (l : RooArgList α) (k : Nat) : Option (RooRealVar α) :=
  l.list[k]?

/-- Modelled from the spec: `RooArgList::snapshot` is an independent copy, equal in content
and order. -/
def RooArgList.snapshot {α : Type} (l : RooArgList α) : RooArgList α := l

/-- The data members of `RooFitResult`. A pointer member is `none` when null; `_corrMatrix`
is a `TList` of rows. -/
structure RooFitResult (α : Type) where
  minNLL : α
  edm : α
  constPars : Option (RooArgList α)
  initPars : Option (RooArgList α)
  finalPars : Option (RooArgList α)
  globalCorr : Option (RooArgList α)
  corrMatrix : List (RooArgList α)

/-- The members of the global `TMinuit` object that `fillCorrMatrix` touches. -/
structure TMinuit (α : Type) where
  fNpar : Int
  fNpagwd : Int
  fNexofi : List Int
  fVhmat : List α
  fGlobcc : List α
  fMATUvline : List α

/-- The constructor: the three lists and `_globalCorr` are null, `_corrMatrix` is empty;
`_minNLL` and `_edm` are not initialised and are whatever the caller supplies. -/
def RooFitResult.new {α : Type} (minNLL edm : α) : RooFitResult α :=
  { minNLL := minNLL, edm := edm, constPars := none, initPars := none, finalPars := none,
    globalCorr := none, corrMatrix := [] }

/-- `setConstParList`. -/
def RooFitResult.setConstParList {α : Type} (r : RooFitResult α) (list : RooArgList α) :
    RooFitResult α :=
  { r with constPars := some list.snapshot }

/-- `setInitParList`. -/
def RooFitResult.setInitParList {α : Type} (r : RooFitResult α) (list : RooArgList α) :
    RooFitResult α :=
  { r with initPars := some list.snapshot }

/-- `setFinalParList`. -/
def RooFitResult.setFinalParList {α : Type} (r : RooFitResult α) (list : RooArgList α) :
    RooFitResult α :=
  { r with finalPars := some list.snapshot }

/-- `correlation(const char* parname)`: the row of `parname`. The outer `none` is a
dereference of a null `_initPars`; the inner `none` is a returned null row. `TList::At`
returns null for a position that is out of range. -/
def RooFitResult.correlationRow {α : Type} (r : RooFitResult α) (parname : String) :
    Option (Option (RooArgList α)) :=
  match r.initPars with
  | none => none
  | some initPars =>
    match initPars.find parname with
    | none => some none
    | some arg => some (r.corrMatrix[initPars.index arg]?)

/-- `correlation(const char* parname1, const char* parname2)`. `none` is a dereference of a
null pointer (`_initPars`, or the element `row->at(..)`). -/
def RooFitResult.correlation {α : Type} [Zero α] (r : RooFitResult α)
    (parname1 parname2 : String) : Option α :=
  match r.correlationRow parname1 with
  | none => none
  | some none => some 0
  | some (some row) =>
    match r.initPars with
    | none => none
    | some initPars =>
      match initPars.find parname2 with
      | none => some 0
      | some arg =>
        match row.at (initPars.index arg) with
        | none => none
        | some v => some v.val

/-- A call of the `const` member `correlation(const char*)` as a step on the record: the
returned row together with the record after the call. -/
def RooFitResult.correlationRowCall {α : Type} (r : RooFitResult α) (parname : String) :
    Option (Option (RooArgList α) × RooFitResult α) :=
  (r.correlationRow parname).map fun row => (row, r)

/-- The absolute value of a `Double_t`: `TMath::Abs` is not part of the file. -/
class Fabs (α : Type) where
  /-- The absolute value. -/
  fabs : α → α

/-- In an ordered field `TMath::Abs` is the absolute value of the field. -/
instance fieldFabs {α : Type} [LinearOrderedField α] : Fabs α := ⟨fun x => |x|⟩

section Extraction

variable {α : Type} [Zero α] [Mul α] [Div α] [Fabs α]

/-- Lines 203 to 219: the row of holders of one parameter, every coefficient `0`. -/
def newCorrMatrixRow (initPars : RooArgList α) (arg : RooRealVar α) : RooArgList α :=
  initPars.list.foldl
    (fun corrMatrixRow arg2 =>
      corrMatrixRow.addOwned
        { name := "C[" ++ arg.name ++ "," ++ arg2.name ++ "]",
          title := "Correlation between " ++ arg.name ++ " and " ++ arg2.name,
          val := 0 })
    { name := "C[" ++ arg.name ++ ",*]", list := [] }

/-- Lines 186 to 223: the holders of the global correlations and of the matrix, one per
element of the initial list, every value `0`. -/
def newHolders (initPars : RooArgList α) : RooArgList α × List (RooArgList α) :=
  initPars.list.foldl
    (fun st arg =>
      (st.1.addOwned
          { name := "GC[" ++ arg.name ++ "]",
            title := arg.title ++ " Global Correlation",
            val := 0 },
        st.2 ++ [newCorrMatrixRow initPars arg]))
    ({ name := "globalCorrelations", list := [] }, [])

/-- The element an iterator returns at its `k`-th `Next()` gets a new value; a null element
is a failure. -/
def setValAt (l : List (RooRealVar α)) (k : Nat) (x : α) : Option (List (RooRealVar α)) :=
  match l[k]? with
  | none => none
  | some v => some (l.set k (v.setVal x))

/-- Lines 240 to 244: the body of the loop over `j`, which writes `fMATUvline[j-1]`. -/
def lineStep (Sqrt : α → α) (i : Nat) (g : TMinuit α) (j : Nat) : Option (TMinuit α) :=
  let ndi := i * (i + 1) / 2
  let m := max i j
  let n := min i j
  let ndex := m * (m - 1) / 2 + n
  let ndj := j * (j + 1) / 2
  match g.fVhmat[ndex - 1]?, g.fVhmat[ndi - 1]?, g.fVhmat[ndj - 1]? with
  | some vdex, some vdi, some vdj =>
    if j - 1 < g.fMATUvline.length then
      some { g with fMATUvline := g.fMATUvline.set (j - 1) (vdex / Sqrt (Fabs.fabs (vdi * vdj))) }
    else none
  | _, _, _ => none

/-- Lines 251 to 254: the body of the loop over `it`, which copies `fMATUvline[it-1]` into
the `it`-th holder of the row. -/
def copyStep (g : TMinuit α) (row : RooArgList α) (it : Nat) : Option (RooArgList α) :=
  match g.fMATUvline[it - 1]? with
  | none => none
  | some x =>
    match setValAt row.list (it - 1) x with
    | none => none
    | some l => some { row with list := l }

/-- Lines 237 to 255: the body of the loop over `i`. The state is the minimizer, the list of
global correlations and the matrix. The locals `ncoef` and `nparm` are never read and are
left out; `ix` is read from `fNexofi` and never used. -/
def rowStep (Sqrt : α → α) (npar : Nat)
    (st : TMinuit α × RooArgList α × List (RooArgList α)) (i : Nat) :
    Option (TMinuit α × RooArgList α × List (RooArgList α)) :=
  match st.1.fNexofi[i - 1]? with
  | none => none
  | some _ix =>
    match (List.range' 1 npar).foldlM (lineStep Sqrt i) st.1 with
    | none => none
    | some g =>
      match g.fGlobcc[i - 1]? with
      | none => none
      | some gc =>
        match setValAt st.2.1.list (i - 1) gc with
        | none => none
        | some gcl =>
          match st.2.2[i - 1]? with
          | none => none
          | some row =>
            match (List.range' 1 npar).foldlM (copyStep g) row with
            | none => none
            | some row1 => some (g, { st.2.1 with list := gcl }, st.2.2.set (i - 1) row1)

/-- `fillCorrMatrix`: the minimizer and the record after the call, `none` when the call
dereferences a null pointer or leaves an array. -/
def fillCorrMatrix (Sqrt : α → α) (g : TMinuit α) (r : RooFitResult α) :
    Option (TMinuit α × RooFitResult α) :=
  if g.fNpar ≤ 1 then some (g, r)
  else
    match r.initPars with
    | none => some (g, r)
    | some initPars =>
      let h := newHolders initPars
      match (List.range' 1 g.fNpar.toNat).foldlM (rowStep Sqrt g.fNpar.toNat) (g, h.1, h.2) with
      | none => none
      | some (g1, globalCorr, corrMatrix) =>
        some (g1, { r with globalCorr := some globalCorr, corrMatrix := corrMatrix })

/-- The buffers of the minimizer are large enough for `N` floating parameters, and `N` is
the count the minimizer reports. -/
def TMinuit.Adequate (g : TMinuit α) (N : Nat) : Prop :=
  g.fNpar = (N : Int) ∧ N ≤ g.fNexofi.length ∧ N * (N + 1) / 2 ≤ g.fVhmat.length ∧
    N ≤ g.fGlobcc.length ∧ N ≤ g.fMATUvline.length

instance (g : TMinuit α) (N : Nat) : Decidable (g.Adequate N) := by
  unfold TMinuit.Adequate; infer_instance

/-- The coefficient of the internal parameters `i`, `j` (counted from 1) as the spec writes
it: `V[m*(m-1)/2+n] / sqrt |V[i*(i+1)/2] * V[j*(j+1)/2]|` with flat indices counted from 1. -/
def corrSpec (Sqrt : α → α) (V : List α) (i j : Nat) : α :=
  V.getD (max i j * (max i j - 1) / 2 + min i j - 1) 0 /
    Sqrt (Fabs.fabs (V.getD (i * (i + 1) / 2 - 1) 0 * V.getD (j * (j + 1) / 2 - 1) 0))

/-- Holder of a global correlation, with a value. -/
def gcHolder (arg : RooRealVar α) (x : α) : RooRealVar α :=
  { name := "GC[" ++ arg.name ++ "]", title := arg.title ++ " Global Correlation", val := x }

/-- Holder of a coefficient, with a value. -/
def cHolder (arg arg2 : RooRealVar α) (x : α) : RooRealVar α :=
  { name := "C[" ++ arg.name ++ "," ++ arg2.name ++ "]",
    title := "Correlation between " ++ arg.name ++ " and " ++ arg2.name, val := x }

/-- The list of global correlations after `n` rounds of the loop over `i`. -/
def globalCorrAfter (G : List α) (initPars : RooArgList α) (n : Nat) : RooArgList α :=
  { name := "globalCorrelations",
    list := initPars.list.mapIdx fun k arg => gcHolder arg (if k < n then G.getD k 0 else 0) }

/-- The row of the parameter at position `k` after `n` rounds of the loop over `i`. -/
def corrRowAfter (Sqrt : α → α) (V : List α) (initPars : RooArgList α) (N n k : Nat)
    (arg : RooRealVar α) : RooArgList α :=
  { name := "C[" ++ arg.name ++ ",*]",
    list := initPars.list.mapIdx fun l arg2 =>
      cHolder arg arg2 (if k < n ∧ l < N then corrSpec Sqrt V (k + 1) (l + 1) else 0) }

/-- The matrix after `n` rounds of the loop over `i`. -/
def corrMatrixAfter (Sqrt : α → α) (V : List α) (initPars : RooArgList α) (N n : Nat) :
    List (RooArgList α) :=
  initPars.list.mapIdx fun k arg => corrRowAfter Sqrt V initPars N n k arg

/-- The scratch line of the minimizer after `n` rounds of the loop over `i`. -/
def lineAfter (Sqrt : α → α) (V : List α) (N n : Nat) (U : List α) : List α :=
  U.mapIdx fun k u => if k < N ∧ 0 < n then corrSpec Sqrt V n (k + 1) else u

/-- The coefficient stored at row `i`, column `j` (counted from 1) of a matrix. -/
def coefAt (corrMatrix : List (RooArgList α)) (i j : Nat) : Option α :=
  match corrMatrix[i - 1]? with
  | none => none
  | some row => (row.list[j - 1]?).map fun v => v.val

/-- The record after a call of `fillCorrMatrix` that passes the guards. -/
def recordAfter (Sqrt : α → α) (g : TMinuit α) (r : RooFitResult α) (initPars : RooArgList α)
    (N : Nat) : RooFitResult α :=
  { r with globalCorr := some (globalCorrAfter g.fGlobcc initPars N),
           corrMatrix := corrMatrixAfter Sqrt g.fVhmat initPars N N }

/-- The placement as the spec words it: the coefficient of the internal parameters `i`, `j`
is found at the row and the column that the index permutation `fNexofi` assigns to them. -/
def StoredViaPermutation (Sqrt : α → α) (g : TMinuit α) (corrMatrix : List (RooArgList α))
    (i j : Nat) : Prop :=
  coefAt corrMatrix (g.fNexofi.getD (i - 1) 0).toNat (g.fNexofi.getD (j - 1) 0).toNat =
    some (corrSpec Sqrt g.fVhmat i j)

/-- The placement of a global correlation as the spec words it: the value of the internal
parameter `i` is found at the position of the list that the index permutation `fNexofi`
assigns to `i`. -/
def GlobalViaPermutation (g : TMinuit α) (globalCorr : RooArgList α) (i : Nat) : Prop :=
  (globalCorr.list[(g.fNexofi.getD (i - 1) 0).toNat - 1]?).map (fun v => v.val) =
    g.fGlobcc[i - 1]?

/-- The flat index, counted from 1, of row `m`, column `n` of the packed lower triangle:
`ndex` of line 242. -/
def packedIndex (m n : Nat) : Nat := m * (m - 1) / 2 + n

/-- The flat index, counted from 1, of the diagonal entry `i`: `ndi` and `ndj` of lines 238
and 243. -/
def diagIndex (i : Nat) : Nat := i * (i + 1) / 2

/-- Line 242 on integers with the division of C, which truncates. -/
def packedIndexInt (m n : Int) : Int := Int.tdiv (m * (m - 1)) 2 + n

/-- Lines 238 and 243 on integers with the division of C, which truncates. -/
def diagIndexInt (i : Int) : Int := Int.tdiv (i * (i + 1)) 2

/-- Every member of the minimizer but the scratch line `fMATUvline` is the same in `g1` as in
`g`, and the scratch line has kept its length. -/
def TMinuit.SameButLine (g g1 : TMinuit α) : Prop :=
  g1.fNpar = g.fNpar ∧ g1.fNpagwd = g.fNpagwd ∧ g1.fNexofi = g.fNexofi ∧
    g1.fVhmat = g.fVhmat ∧ g1.fGlobcc = g.fGlobcc ∧
    g1.fMATUvline.length = g.fMATUvline.length

/-- The records that the constructor, `setConstParList`, `setFinalParList` and calls of
`fillCorrMatrix` that return can produce: the initial list is never set. -/
inductive ReachableNoInit (Sqrt : α → α) : RooFitResult α → Prop
  | new (minNLL edm : α) : ReachableNoInit Sqrt (RooFitResult.new minNLL edm)
  | setConst (r : RooFitResult α) (list : RooArgList α) :
      ReachableNoInit Sqrt r → ReachableNoInit Sqrt (r.setConstParList list)
  | setFinal (r : RooFitResult α) (list : RooArgList α) :
      ReachableNoInit Sqrt r → ReachableNoInit Sqrt (r.setFinalParList list)
  | fill (r r1 : RooFitResult α) (g g1 : TMinuit α) :
      ReachableNoInit Sqrt r → fillCorrMatrix Sqrt g r = some (g1, r1) →
      ReachableNoInit Sqrt r1

end Extraction

/-! ## The example of the spec -/

section Example

variable (α : Type) [LinearOrderedField α]

/-- The three floating parameters `A`, `B`, `C` of the example. -/
def exampleInit : RooArgList α :=
  { name := "init",
    list := [{ name := "A", title := "a", val := 0 }, { name := "B", title := "b", val := 0 },
      { name := "C", title := "c", val := 0 }] }

/-- A minimizer with three floating parameters and the packed covariance of the example. -/
def exampleMinuit : TMinuit α :=
  { fNpar := 3, fNpagwd := 80, fNexofi := [1, 2, 3], fVhmat := [4, 2, 9, 1, 3, 16],
    fGlobcc := [1 / 10, 2 / 10, 3 / 10], fMATUvline := [0, 0, 0] }

/-- A new record whose initial list is set to `A`, `B`, `C`. -/
def exampleRecord : RooFitResult α :=
  (RooFitResult.new 0 0).setInitParList (exampleInit α)

/-- The minimizer of the example with the index permutation that exchanges the first two
parameters. -/
def permutedMinuit : TMinuit α :=
  { exampleMinuit α with fNexofi := [2, 1, 3] }

end Example

/-! ## IEEE 754 binary64

`Double_t` is the binary64 format. The model below is what the standard prescribes for
multiplication, division, square root and absolute value with rounding to nearest, ties to
even; the sign and payload of a NaN are not kept. -/

/-- Modelled from the spec: `Double_t` is declared outside the file. An IEEE 754 binary64
value: a NaN, an infinity with its sign, or the finite value `(-1)^neg * m * 2^e`. The results
of the operations are canonical: `-1074 ≤ e ≤ 971`, `m < 2^53`, and `2^52 ≤ m` unless
`e = -1074` (zero and the subnormal values). -/
inductive Double where
  | nan : Double
  | inf (neg : Bool) : Double
  | fin (neg : Bool) (m : Nat) (e : Int) : Double
deriving DecidableEq

namespace Double

/-- The fraction `(n / d) / 2^t`, as numerator and denominator. -/
def scale (n d : Nat) (t : Int) : Nat × Nat :=
  if 0 ≤ t then (n, d * 2 ^ t.toNat) else (n * 2 ^ (-t).toNat, d)

/-- The number of binary digits of `n`, counted with `fuel` steps at most. -/
def bits : Nat → Nat → Nat
  | 0, _ => 0
  | fuel + 1, n => if n = 0 then 0 else bits fuel (n / 2) + 1

/-- The exponent of the leading binary digit of `n`, for `0 < n`. -/
def log2 (n : Nat) : Nat := bits n n - 1

/-- The binary64 value nearest to `(-1)^neg * (n / d) * 2^e`, ties to even (`0 < d`): `k` is
the exponent of the leading bit, `t` the exponent of the last kept bit, `q` and `r` quotient
and remainder at that position; a value of `2^1024 - 2^970` or more overflows to infinity. -/
def round (neg : Bool) (n d : Nat) (e : Int) : Double :=
  if n = 0 then fin neg 0 (-1074)
  else
    let k0 : Int := (log2 n : Int) - (log2 d : Int)
    let s0 := scale n d k0
    let k : Int := (if s0.2 ≤ s0.1 then k0 else k0 - 1) + e
    let t : Int := max (k - 52) (-1074)
    let s := scale n d (t - e)
    let q := s.1 / s.2
    let r := s.1 % s.2
    let m := if 2 * r < s.2 then q else if s.2 < 2 * r then q + 1
      else if q % 2 = 0 then q else q + 1
    if m = 2 ^ 53 then (if 971 < t + 1 then inf neg else fin neg (2 ^ 52) (t + 1))
    else if 971 < t then inf neg else fin neg m t

/-- The product of two doubles. -/
def mul : Double → Double → Double
  | nan, _ => nan
  | _, nan => nan
  | inf a, inf b => inf (a != b)
  | inf a, fin b m _ => if m = 0 then nan else inf (a != b)
  | fin a m _, inf b => if m = 0 then nan else inf (a != b)
  | fin a m1 e1, fin b m2 e2 => round (a != b) (m1 * m2) 1 (e1 + e2)

/-- The quotient of two doubles. -/
def div : Double → Double → Double
  | nan, _ => nan
  | _, nan => nan
  | inf _, inf _ => nan
  | inf a, fin b _ _ => inf (a != b)
  | fin a _ _, inf b => fin (a != b) 0 (-1074)
  | fin a m1 e1, fin b m2 e2 =>
    if m2 = 0 then (if m1 = 0 then nan else inf (a != b))
    else round (a != b) m1 m2 (e1 - e2)

/-- The absolute value of a double, `TMath::Abs`. -/
def fabs : Double → Double
  | nan => nan
  | inf _ => inf false
  | fin _ m e => fin false m e

/-- The square root of a double, `TMath::Sqrt`. The mantissa is shifted by `c` bits, `c` at
least 112 and of the parity of `e`; `r` is its integer square root, and `4 * r`, with a
sticky digit when the root is not exact, is rounded at the exponent `(e - c) / 2 - 2`. -/
def sqrt : Double → Double
  | nan => nan
  | inf neg => if neg then nan else inf false
  | fin neg m e =>
    if m = 0 then fin neg 0 (-1074)
    else if neg then nan
    else
      let c : Int := 112 + e % 2
      let M := m * 2 ^ c.toNat
      let r := Nat.sqrt M
      let sticky := if r * r = M then 0 else 1
      round false (4 * r + sticky) 1 ((e - c) / 2 - 2)

/-- The power `2^k` of two as a double, for `-1022 ≤ k ≤ 1023`. -/
def pow2 (k : Int) : Double := fin false (2 ^ 52) (k - 52)

/-- The rational value of a finite double. -/
def toRat : Double → Option ℚ
  | fin neg m e => some ((if neg then -1 else 1) * (m : ℚ) * (2 : ℚ) ^ e)
  | _ => none

/-- A double is a number of the interval `[-1, 1]`. -/
def InUnitInterval (c : Double) : Prop :=
  ∃ q : ℚ, c.toRat = some q ∧ -1 ≤ q ∧ q ≤ 1

instance : Zero Double := ⟨fin false 0 (-1074)⟩

instance : One Double := ⟨pow2 0⟩

instance : Mul Double := ⟨mul⟩

instance : Div Double := ⟨div⟩

instance : Fabs Double := ⟨fabs⟩

end Double

section DoubleExample

/-- Two floating parameters `A`, `B`. -/
def twoInit : RooArgList Double :=
  { name := "init",
    list := [{ name := "A", title := "a", val := 0 }, { name := "B", title := "b", val := 0 }] }

/-- A new record whose initial list is set to `A`, `B`. -/
def twoRecord : RooFitResult Double :=
  (RooFitResult.new 0 0).setInitParList twoInit

/-- A minimizer with two floating parameters and the packed covariance
`[2^600, 2^599, 2^600]`, which is positive definite. -/
def overflowMinuit : TMinuit Double :=
  { fNpar := 2, fNpagwd := 80, fNexofi := [1, 2],
    fVhmat := [Double.pow2 600, Double.pow2 599, Double.pow2 600],
    fGlobcc := [0, 0], fMATUvline := [0, 0] }

/-- A minimizer with two floating parameters and the packed covariance
`[2^-600, 2^-601, 2^-600]`, which is positive definite. -/
def underflowMinuit : TMinuit Double :=
  { fNpar := 2, fNpagwd := 80, fNexofi := [1, 2],
    fVhmat := [Double.pow2 (-600), Double.pow2 (-601), Double.pow2 (-600)],
    fGlobcc := [0, 0], fMATUvline := [0, 0] }

end DoubleExample

/-! ## Lists of holders -/

section Lemmas

variable {α : Type}

@[simp] theorem fabs_eq_abs {β : Type} [LinearOrderedField β] (x : β) : Fabs.fabs x = |x| :=
  rfl

theorem foldl_addOwned {β : Type} (f : β → RooRealVar α) (xs : List β) (l : RooArgList α) :
    xs.foldl (fun acc x => acc.addOwned (f x)) l = { l with list := l.list ++ xs.map f } := by
  induction xs generalizing l with
  | nil => simp
  | cons x xs ih =>
    rw [List.foldl_cons, ih]
    simp [RooArgList.addOwned]

theorem mapIdx_eq_self (U : List α) : (U.mapIdx fun _ u => u) = U := by
  apply List.ext_getElem?
  intro k
  simp

theorem getElem?_eq_some_getD {β : Type} (l : List β) (k : Nat) (d : β) (h : k < l.length) :
    l[k]? = some (l.getD k d) := by
  simp [List.getD, List.getElem?_eq_getElem h]

theorem findPos_lt {name : String} {l : List (RooRealVar α)} {k : Nat}
    (h : findPos name l = some k) : k < l.length := by
  induction l generalizing k with
  | nil => simp [findPos] at h
  | cons x xs ih =>
    simp only [findPos] at h
    split at h
    · cases h; simp
    · cases hx : findPos name xs with
      | none => simp [hx] at h
      | some p =>
        simp [hx] at h
        have := ih hx
        subst h
        simp
        omega

theorem findPos_name {name : String} {l : List (RooRealVar α)} {k : Nat}
    (h : findPos name l = some k) : (l[k]?).map (fun v => v.name) = some name := by
  induction l generalizing k with
  | nil => simp [findPos] at h
  | cons x xs ih =>
    simp only [findPos] at h
    split at h
    · cases h; simpa
    · cases hx : findPos name xs with
      | none => simp [hx] at h
      | some p =>
        simp [hx] at h
        subst h
        simpa using ih hx

theorem findPos_eq_none {name : String} {l : List (RooRealVar α)} :
    findPos name l = none ↔ name ∉ l.map (fun v => v.name) := by
  induction l with
  | nil => simp [findPos]
  | cons x xs ih =>
    simp only [findPos, List.map_cons, List.mem_cons, not_or]
    split
    · rename_i hx
      simp [hx]
    · rename_i hx
      simp only [Option.map_eq_none', ih]
      constructor
      · intro h
        exact ⟨fun e => hx e.symm, h⟩
      · intro h
        exact h.2

theorem findPos_nodup {l : List (RooRealVar α)} (hd : (l.map fun v => v.name).Nodup)
    {k : Nat} {v : RooRealVar α} (hk : l[k]? = some v) : findPos v.name l = some k := by
  induction l generalizing k with
  | nil => simp at hk
  | cons x xs ih =>
    simp only [List.map_cons, List.nodup_cons] at hd
    cases k with
    | zero =>
      simp at hk
      subst hk
      simp [findPos]
    | succ k =>
      simp at hk
      have hmem : v.name ∈ xs.map (fun v => v.name) :=
        List.mem_map.2 ⟨v, List.getElem?_mem hk, rfl⟩
      have hne : x.name ≠ v.name := fun e => hd.1 (e ▸ hmem)
      simp [findPos, hne, ih hd.2 hk]

theorem findPos_first {l : List (RooRealVar α)} {p : Nat} {v : RooRealVar α}
    (hp : l[p]? = some v)
    (hfirst : ∀ q w, q < p → l[q]? = some w → w.name ≠ v.name) :
    findPos v.name l = some p := by
  induction l generalizing p with
  | nil => simp at hp
  | cons x xs ih =>
    cases p with
    | zero =>
      simp at hp
      subst hp
      simp [findPos]
    | succ p =>
      simp at hp
      have hne : x.name ≠ v.name := hfirst 0 x (by omega) (by simp)
      have h := ih hp (fun q w hq hw => hfirst (q + 1) w (by omega) (by simpa using hw))
      simp [findPos, hne, h]

end Lemmas

/-! ## The loops of `fillCorrMatrix` in closed form -/

section Loops

variable {α : Type} [Zero α] [Mul α] [Div α] [Fabs α]

theorem newCorrMatrixRow_eq (initPars : RooArgList α) (arg : RooRealVar α) (N k : Nat)
    (Sqrt : α → α) (V : List α) :
    newCorrMatrixRow initPars arg = corrRowAfter Sqrt V initPars N 0 k arg := by
  unfold newCorrMatrixRow corrRowAfter
  have h := foldl_addOwned (fun arg2 : RooRealVar α => cHolder arg arg2 0) initPars.list
    { name := "C[" ++ arg.name ++ ",*]", list := [] }
  simp only [cHolder] at h ⊢
  rw [h]
  congr 1
  apply List.ext_getElem?
  intro l
  simp

theorem foldl_holders {β : Type} [Zero β] (initPars : RooArgList β) (xs : List (RooRealVar β))
    (st : RooArgList β × List (RooArgList β)) :
    xs.foldl
        (fun st arg =>
          (st.1.addOwned
              { name := "GC[" ++ arg.name ++ "]",
                title := arg.title ++ " Global Correlation",
                val := 0 },
            st.2 ++ [newCorrMatrixRow initPars arg])) st =
      ({ st.1 with list := st.1.list ++ xs.map fun arg => gcHolder arg 0 },
        st.2 ++ xs.map fun arg => newCorrMatrixRow initPars arg) := by
  induction xs generalizing st with
  | nil => simp
  | cons x xs ih =>
    rw [List.foldl_cons, ih]
    simp [RooArgList.addOwned, gcHolder]

theorem newHolders_eq (Sqrt : α → α) (V G : List α) (initPars : RooArgList α) (N : Nat) :
    newHolders initPars =
      (globalCorrAfter G initPars 0, corrMatrixAfter Sqrt V initPars N 0) := by
  unfold newHolders
  rw [foldl_holders]
  unfold globalCorrAfter corrMatrixAfter
  refine Prod.ext ?_ ?_
  · simp only [List.nil_append]
    congr 1
    apply List.ext_getElem?
    intro k
    simp
  · simp only [List.nil_append]
    apply List.ext_getElem?
    intro k
    simp only [List.getElem?_map, List.getElem?_mapIdx]
    cases initPars.list[k]? with
    | none => rfl
    | some arg => simp [newCorrMatrixRow_eq initPars arg N k Sqrt V]

/-- Half of `k * (k + 1)`, the flat index of the diagonal entry `k`. -/
theorem packed_diag (m : Nat) : m * (m - 1) / 2 + m = m * (m + 1) / 2 := by
  cases m with
  | zero => simp
  | succ k =>
    have h : (k + 1) * (k + 1 + 1) = (k + 1) * (k + 1 - 1) + 2 * (k + 1) := by
      simp only [Nat.add_sub_cancel]
      ring
    rw [h, Nat.add_mul_div_left _ _ (by decide : 0 < 2)]

theorem packed_le {N m n : Nat} (hn : n ≤ m) (hm : m ≤ N) :
    m * (m - 1) / 2 + n ≤ N * (N + 1) / 2 := by
  calc m * (m - 1) / 2 + n ≤ m * (m - 1) / 2 + m := Nat.add_le_add_left hn _
    _ = m * (m + 1) / 2 := packed_diag m
    _ ≤ N * (N + 1) / 2 :=
      Nat.div_le_div_right (Nat.mul_le_mul hm (Nat.succ_le_succ hm))

theorem packed_pos {m n : Nat} (hn : 1 ≤ n) : 1 ≤ m * (m - 1) / 2 + n := by omega

theorem diag_pos {i : Nat} (hi : 1 ≤ i) : 1 ≤ i * (i + 1) / 2 := by
  have h : 1 * (1 + 1) ≤ i * (i + 1) := Nat.mul_le_mul hi (Nat.succ_le_succ hi)
  have := Nat.div_le_div_right (c := 2) h
  simpa using this

theorem diag_le {N i : Nat} (hi : i ≤ N) : i * (i + 1) / 2 ≤ N * (N + 1) / 2 :=
  Nat.div_le_div_right (Nat.mul_le_mul hi (Nat.succ_le_succ hi))

/-- One round of the loop over `j`, on a line of which `n` entries are written. -/
theorem lineStep_eq (Sqrt : α → α) (g : TMinuit α) (N i n : Nat) (U : List α)
    (hV : N * (N + 1) / 2 ≤ g.fVhmat.length) (hi1 : 1 ≤ i) (hi : i ≤ N) (hn : n < N)
    (hU : N ≤ U.length) :
    lineStep Sqrt i
        { g with fMATUvline :=
            (U.mapIdx fun k u => if k < n then corrSpec Sqrt g.fVhmat i (k + 1) else u) }
        (n + 1) =
      some { g with fMATUvline :=
        (U.mapIdx fun k u => if k < n + 1 then corrSpec Sqrt g.fVhmat i (k + 1) else u) } := by
  have hdex : max i (n + 1) * (max i (n + 1) - 1) / 2 + min i (n + 1) - 1 < g.fVhmat.length := by
    have h1 : max i (n + 1) * (max i (n + 1) - 1) / 2 + min i (n + 1) ≤ N * (N + 1) / 2 :=
      packed_le (min_le_max) (max_le hi hn)
    have h2 : 1 ≤ max i (n + 1) * (max i (n + 1) - 1) / 2 + min i (n + 1) :=
      packed_pos (le_min hi1 (by omega))
    omega
  have hdi : i * (i + 1) / 2 - 1 < g.fVhmat.length := by
    have h1 := diag_le hi
    have h2 := diag_pos hi1
    omega
  have hdj : (n + 1) * (n + 1 + 1) / 2 - 1 < g.fVhmat.length := by
    have h1 : (n + 1) * (n + 1 + 1) / 2 ≤ N * (N + 1) / 2 := diag_le hn
    have h2 : 1 ≤ (n + 1) * (n + 1 + 1) / 2 := diag_pos (by omega)
    omega
  unfold lineStep
  simp only [getElem?_eq_some_getD _ _ (0 : α) hdex, getElem?_eq_some_getD _ _ (0 : α) hdi,
    getElem?_eq_some_getD _ _ (0 : α) hdj, List.length_mapIdx, Nat.add_sub_cancel]
  rw [if_pos (by omega)]
  congr 2
  apply List.ext_getElem?
  intro k
  rw [List.getElem?_set, List.getElem?_mapIdx, List.getElem?_mapIdx, List.length_mapIdx]
  by_cases hk : n = k
  · subst hk
    rw [if_pos rfl, if_pos (by omega), getElem?_eq_some_getD U n (0 : α) (by omega)]
    simp [corrSpec]
  · rw [if_neg hk]
    cases U[k]? with
    | none => rfl
    | some u =>
      simp only [Option.map_some']
      by_cases hk2 : k < n
      · rw [if_pos hk2, if_pos (by omega)]
      · rw [if_neg hk2, if_neg (by omega)]

/-- The loop over `j`, up to `n`. -/
theorem lineLoop_eq (Sqrt : α → α) (g : TMinuit α) (N i n : Nat) (U : List α)
    (hV : N * (N + 1) / 2 ≤ g.fVhmat.length) (hi1 : 1 ≤ i) (hi : i ≤ N) (hn : n ≤ N)
    (hU : N ≤ U.length) :
    (List.range' 1 n).foldlM (lineStep Sqrt i) { g with fMATUvline := U } =
      some { g with fMATUvline :=
        (U.mapIdx fun k u => if k < n then corrSpec Sqrt g.fVhmat i (k + 1) else u) } := by
  induction n with
  | zero => simp [mapIdx_eq_self]
  | succ n ih =>
    rw [List.range'_concat, List.foldlM_append, ih (by omega)]
    simp only [Nat.one_mul, List.foldlM_cons, List.foldlM_nil, Option.bind_eq_bind,
      Option.some_bind, Option.pure_def, Option.bind_some]
    rw [Nat.add_comm 1 n]
    exact lineStep_eq Sqrt g N i n U hV hi1 hi (by omega) hU

/-- One round of the loop over `it`, on a row of which `n` holders are written. -/
theorem copyStep_eq {β : Type} [Zero β] (g : TMinuit β) (nm : String) (R : List (RooRealVar β)) (n : Nat)
    (hU : n < g.fMATUvline.length) (hR : n < R.length) :
    copyStep g
        { name := nm,
          list := (R.mapIdx fun k v => if k < n then v.setVal (g.fMATUvline.getD k 0) else v) }
        (n + 1) =
      some { name := nm,
             list := (R.mapIdx fun k v =>
               if k < n + 1 then v.setVal (g.fMATUvline.getD k 0) else v) } := by
  unfold copyStep setValAt
  simp only [Nat.add_sub_cancel, getElem?_eq_some_getD _ _ (0 : β) hU, List.getElem?_mapIdx,
    List.getElem?_eq_getElem hR, Option.map_some', lt_irrefl, if_false]
  congr 2
  apply List.ext_getElem?
  intro k
  rw [List.getElem?_set, List.getElem?_mapIdx, List.getElem?_mapIdx, List.length_mapIdx]
  by_cases hk : n = k
  · subst hk
    rw [if_pos rfl, if_pos hR, List.getElem?_eq_getElem hR]
    simp
  · rw [if_neg hk]
    cases R[k]? with
    | none => rfl
    | some u =>
      simp only [Option.map_some']
      by_cases hk2 : k < n
      · rw [if_pos hk2, if_pos (by omega)]
      · rw [if_neg hk2, if_neg (by omega)]

/-- The loop over `it`, up to `n`. -/
theorem copyLoop_eq {β : Type} [Zero β] (g : TMinuit β) (nm : String) (R : List (RooRealVar β)) (n : Nat)
    (hU : n ≤ g.fMATUvline.length) (hR : n ≤ R.length) :
    (List.range' 1 n).foldlM (copyStep g) { name := nm, list := R } =
      some { name := nm,
             list := (R.mapIdx fun k v =>
               if k < n then v.setVal (g.fMATUvline.getD k 0) else v) } := by
  induction n with
  | zero => simp [mapIdx_eq_self]
  | succ n ih =>
    rw [List.range'_concat, List.foldlM_append, ih (by omega) (by omega)]
    simp only [Nat.one_mul, List.foldlM_cons, List.foldlM_nil, Option.bind_eq_bind,
      Option.some_bind, Option.pure_def, Option.bind_some]
    rw [Nat.add_comm 1 n]
    exact copyStep_eq g nm R n (by omega) (by omega)

theorem lineAfter_step (Sqrt : α → α) (V U : List α) (N n : Nat) :
    ((lineAfter Sqrt V N n U).mapIdx fun k u =>
        if k < N then corrSpec Sqrt V (n + 1) (k + 1) else u) =
      lineAfter Sqrt V N (n + 1) U := by
  unfold lineAfter
  apply List.ext_getElem?
  intro k
  simp only [List.getElem?_mapIdx]
  cases U[k]? with
  | none => rfl
  | some u =>
    simp only [Option.map_some']
    by_cases hk : k < N
    · simp [hk]
    · simp [hk]

theorem lineAfter_getD (Sqrt : α → α) (V U : List α) (N n k : Nat) (hk : k < N)
    (hU : N ≤ U.length) :
    (lineAfter Sqrt V N (n + 1) U).getD k 0 = corrSpec Sqrt V (n + 1) (k + 1) := by
  unfold lineAfter
  have hk2 : k < U.length := by omega
  simp [List.getD, List.getElem?_mapIdx, List.getElem?_eq_getElem hk2, hk]

theorem setValAt_globalCorr {β : Type} [Zero β] (G : List β) (initPars : RooArgList β) (n : Nat)
    (hn : n < initPars.list.length) :
    setValAt (globalCorrAfter G initPars n).list n (G.getD n 0) =
      some (globalCorrAfter G initPars (n + 1)).list := by
  unfold setValAt globalCorrAfter
  simp only [List.getElem?_mapIdx, List.getElem?_eq_getElem hn, Option.map_some']
  congr 1
  apply List.ext_getElem?
  intro k
  rw [List.getElem?_set, List.getElem?_mapIdx, List.getElem?_mapIdx, List.length_mapIdx]
  by_cases hk : n = k
  · subst hk
    rw [if_pos rfl, if_pos hn, List.getElem?_eq_getElem hn]
    simp [RooRealVar.setVal, gcHolder]
  · rw [if_neg hk]
    cases initPars.list[k]? with
    | none => rfl
    | some u =>
      simp only [Option.map_some']
      by_cases hk2 : k < n
      · rw [if_pos hk2, if_pos (by omega)]
      · rw [if_neg hk2, if_neg (by omega)]

theorem corrRow_step (Sqrt : α → α) (V U : List α) (initPars : RooArgList α) (N n : Nat)
    (arg : RooRealVar α) (hU : N ≤ U.length) :
    ((corrRowAfter Sqrt V initPars N n n arg).list.mapIdx fun k v =>
        if k < N then v.setVal ((lineAfter Sqrt V N (n + 1) U).getD k 0) else v) =
      (corrRowAfter Sqrt V initPars N (n + 1) n arg).list := by
  unfold corrRowAfter
  apply List.ext_getElem?
  intro k
  simp only [List.getElem?_mapIdx]
  cases initPars.list[k]? with
  | none => rfl
  | some u =>
    simp only [Option.map_some']
    by_cases hk : k < N
    · rw [if_pos hk, lineAfter_getD Sqrt V U N n k hk hU]
      simp [hk, RooRealVar.setVal, cHolder]
    · simp [hk]

theorem corrMatrix_step (Sqrt : α → α) (V : List α) (initPars : RooArgList α) (N n : Nat)
    (arg : RooRealVar α) (harg : initPars.list[n]? = some arg) :
    (corrMatrixAfter Sqrt V initPars N n).set n (corrRowAfter Sqrt V initPars N (n + 1) n arg) =
      corrMatrixAfter Sqrt V initPars N (n + 1) := by
  unfold corrMatrixAfter
  have hn : n < initPars.list.length := by
    rcases List.getElem?_eq_some.1 harg with ⟨h, _⟩
    exact h
  apply List.ext_getElem?
  intro k
  rw [List.getElem?_set, List.getElem?_mapIdx, List.getElem?_mapIdx, List.length_mapIdx]
  by_cases hk : n = k
  · subst hk
    rw [if_pos rfl, if_pos hn, harg]
    rfl
  · rw [if_neg hk]
    cases initPars.list[k]? with
    | none => rfl
    | some u =>
      simp only [Option.map_some']
      unfold corrRowAfter
      congr 2
      apply List.ext_getElem?
      intro l
      simp only [List.getElem?_mapIdx]
      cases initPars.list[l]? with
      | none => rfl
      | some w =>
        simp only [Option.map_some']
        by_cases hk2 : k < n
        · have hk3 : k < n + 1 := by omega
          simp [hk2, hk3]
        · have hk3 : ¬ k < n + 1 := by omega
          simp [hk2, hk3]

/-- One round of the loop over `i`. -/
theorem rowStep_eq (Sqrt : α → α) (g : TMinuit α) (initPars : RooArgList α) (N n : Nat)
    (hX : N ≤ g.fNexofi.length) (hV : N * (N + 1) / 2 ≤ g.fVhmat.length)
    (hG : N ≤ g.fGlobcc.length) (hU : N ≤ g.fMATUvline.length)
    (hL : N ≤ initPars.list.length) (hn : n < N) :
    rowStep Sqrt N
        ({ g with fMATUvline := lineAfter Sqrt g.fVhmat N n g.fMATUvline },
          globalCorrAfter g.fGlobcc initPars n, corrMatrixAfter Sqrt g.fVhmat initPars N n)
        (n + 1) =
      some ({ g with fMATUvline := lineAfter Sqrt g.fVhmat N (n + 1) g.fMATUvline },
        globalCorrAfter g.fGlobcc initPars (n + 1),
        corrMatrixAfter Sqrt g.fVhmat initPars N (n + 1)) := by
  have hlen : N ≤ (lineAfter Sqrt g.fVhmat N n g.fMATUvline).length := by
    simpa [lineAfter] using hU
  have hline := lineLoop_eq Sqrt g N (n + 1) N (lineAfter Sqrt g.fVhmat N n g.fMATUvline) hV
    (by omega) (by omega) (le_refl N) hlen
  rw [lineAfter_step] at hline
  have hnL : n < initPars.list.length := by omega
  have hrow : (corrMatrixAfter Sqrt g.fVhmat initPars N n)[n]? =
      some (corrRowAfter Sqrt g.fVhmat initPars N n n initPars.list[n]) := by
    simp [corrMatrixAfter, List.getElem?_eq_getElem hnL]
  have hlen2 : N ≤ (lineAfter Sqrt g.fVhmat N (n + 1) g.fMATUvline).length := by
    simpa [lineAfter] using hU
  have hcopy := copyLoop_eq
    { g with fMATUvline := lineAfter Sqrt g.fVhmat N (n + 1) g.fMATUvline }
    ("C[" ++ (initPars.list[n]).name ++ ",*]")
    (corrRowAfter Sqrt g.fVhmat initPars N n n initPars.list[n]).list N hlen2
    (by simpa [corrRowAfter] using hL)
  simp only [] at hcopy
  rw [corrRow_step Sqrt g.fVhmat g.fMATUvline initPars N n _ hU] at hcopy
  unfold rowStep
  simp only [Nat.add_sub_cancel, getElem?_eq_some_getD g.fNexofi n (0 : Int) (by omega), hline,
    getElem?_eq_some_getD g.fGlobcc n (0 : α) (by omega), setValAt_globalCorr _ _ _ hnL, hrow]
  have hcopy2 : List.foldlM
      (copyStep { g with fMATUvline := lineAfter Sqrt g.fVhmat N (n + 1) g.fMATUvline })
      (corrRowAfter Sqrt g.fVhmat initPars N n n initPars.list[n]) (List.range' 1 N) =
      some (corrRowAfter Sqrt g.fVhmat initPars N (n + 1) n initPars.list[n]) := hcopy
  simp only [hcopy2]
  rw [corrMatrix_step Sqrt g.fVhmat initPars N n _ (List.getElem?_eq_getElem hnL)]
  rfl

/-- The loop over `i`, up to `n`. -/
theorem rowLoop_eq (Sqrt : α → α) (g : TMinuit α) (initPars : RooArgList α) (N n : Nat)
    (hX : N ≤ g.fNexofi.length) (hV : N * (N + 1) / 2 ≤ g.fVhmat.length)
    (hG : N ≤ g.fGlobcc.length) (hU : N ≤ g.fMATUvline.length)
    (hL : N ≤ initPars.list.length) (hn : n ≤ N) :
    (List.range' 1 n).foldlM (rowStep Sqrt N)
        (g, globalCorrAfter g.fGlobcc initPars 0, corrMatrixAfter Sqrt g.fVhmat initPars N 0) =
      some ({ g with fMATUvline := lineAfter Sqrt g.fVhmat N n g.fMATUvline },
        globalCorrAfter g.fGlobcc initPars n, corrMatrixAfter Sqrt g.fVhmat initPars N n) := by
  induction n with
  | zero => simp [lineAfter, mapIdx_eq_self]
  | succ n ih =>
    rw [List.range'_concat, List.foldlM_append, ih (by omega)]
    simp only [Nat.one_mul, List.foldlM_cons, List.foldlM_nil, Option.bind_eq_bind,
      Option.some_bind, Option.pure_def, Option.bind_some]
    rw [Nat.add_comm 1 n]
    exact rowStep_eq Sqrt g initPars N n hX hV hG hU hL (by omega)

/-- The result of `fillCorrMatrix` when both guards pass and no access leaves an array or a
list. -/
theorem fillCorrMatrix_eq (Sqrt : α → α) (g : TMinuit α) (r : RooFitResult α)
    (initPars : RooArgList α) (N : Nat) (hN : 2 ≤ N) (hg : g.Adequate N)
    (hr : r.initPars = some initPars) (hL : N ≤ initPars.list.length) :
    fillCorrMatrix Sqrt g r =
      some ({ g with fMATUvline := lineAfter Sqrt g.fVhmat N N g.fMATUvline },
        recordAfter Sqrt g r initPars N) := by
  obtain ⟨hpar, hX, hV, hG, hU⟩ := hg
  unfold fillCorrMatrix
  have h1 : ¬ g.fNpar ≤ 1 := by rw [hpar]; omega
  have h2 : g.fNpar.toNat = N := by rw [hpar]; simp
  rw [if_neg h1]
  simp only [hr, h2, newHolders_eq Sqrt g.fVhmat g.fGlobcc initPars N,
    rowLoop_eq Sqrt g initPars N N hX hV hG hU hL (le_refl N), recordAfter]

end Loops

/-! ## Reading the stored matrix -/

section Reading

variable {α : Type} [Zero α] [Mul α] [Div α] [Fabs α]

theorem coefAt_after (Sqrt : α → α) (V : List α) (initPars : RooArgList α) (N i j : Nat)
    (hi1 : 1 ≤ i) (hj1 : 1 ≤ j) (hi : i ≤ initPars.list.length)
    (hj : j ≤ initPars.list.length) :
    coefAt (corrMatrixAfter Sqrt V initPars N N) i j =
      some (if i ≤ N ∧ j ≤ N then corrSpec Sqrt V i j else 0) := by
  have hi2 : i - 1 < initPars.list.length := by omega
  have hj2 : j - 1 < initPars.list.length := by omega
  have e1 : i - 1 + 1 = i := by omega
  have e2 : j - 1 + 1 = j := by omega
  have c1 : (i - 1 < N) = (i ≤ N) := propext (by omega)
  have c2 : (j - 1 < N) = (j ≤ N) := propext (by omega)
  simp only [coefAt, corrMatrixAfter, corrRowAfter, cHolder, List.getElem?_mapIdx,
    List.getElem?_eq_getElem hi2, List.getElem?_eq_getElem hj2, Option.map_some', e1, e2, c1, c2]

theorem correlation_after (Sqrt : α → α) (g : TMinuit α) (r : RooFitResult α)
    (initPars : RooArgList α) (N : Nat) (hr : r.initPars = some initPars) (a b : String)
    (p q : Nat) (hp : findPos a initPars.list = some p) (hq : findPos b initPars.list = some q) :
    (recordAfter Sqrt g r initPars N).correlation a b =
      some (if p < N ∧ q < N then corrSpec Sqrt g.fVhmat (p + 1) (q + 1) else 0) := by
  have hp2 := findPos_lt hp
  have hq2 := findPos_lt hq
  simp only [RooFitResult.correlation, RooFitResult.correlationRow, recordAfter, hr,
    RooArgList.find, RooArgList.index, RooArgList.at, hp, hq, corrMatrixAfter, corrRowAfter,
    cHolder, List.getElem?_mapIdx, List.getElem?_eq_getElem hp2, List.getElem?_eq_getElem hq2,
    Option.map_some']

theorem corrSpec_entries (Sqrt : α → α) (V : List α) (N i j : Nat)
    (hV : N * (N + 1) / 2 ≤ V.length) (hi1 : 1 ≤ i) (hi : i ≤ N) (hj1 : 1 ≤ j) (hj : j ≤ N) :
    ∃ x y z, V[max i j * (max i j - 1) / 2 + min i j - 1]? = some x ∧
      V[i * (i + 1) / 2 - 1]? = some y ∧ V[j * (j + 1) / 2 - 1]? = some z ∧
      corrSpec Sqrt V i j = x / Sqrt (Fabs.fabs (y * z)) := by
  have h1 : max i j * (max i j - 1) / 2 + min i j ≤ N * (N + 1) / 2 :=
    packed_le min_le_max (max_le hi hj)
  have h2 : 1 ≤ max i j * (max i j - 1) / 2 + min i j := packed_pos (le_min hi1 hj1)
  have h3 := diag_le hi
  have h4 := diag_pos hi1
  have h5 := diag_le hj
  have h6 := diag_pos hj1
  exact ⟨_, _, _, getElem?_eq_some_getD V _ 0 (by omega), getElem?_eq_some_getD V _ 0 (by omega),
    getElem?_eq_some_getD V _ 0 (by omega), rfl⟩

theorem correlation_unknown {β : Type} [Zero β] (r : RooFitResult β) (initPars : RooArgList β)
    (hr : r.initPars = some initPars) (a b : String)
    (h : findPos a initPars.list = none ∨ findPos b initPars.list = none) :
    r.correlation a b = some 0 := by
  unfold RooFitResult.correlation RooFitResult.correlationRow
  simp only [hr, RooArgList.find, RooArgList.index]
  cases ha : findPos a initPars.list with
  | none => rfl
  | some p =>
    have hb : findPos b initPars.list = none := by
      rcases h with h | h
      · rw [ha] at h
        cases h
      · exact h
    simp only []
    cases r.corrMatrix[p]? with
    | none => rfl
    | some row => simp only [hb]

theorem fillCorrMatrix_skip (Sqrt : α → α) (g : TMinuit α) (r : RooFitResult α)
    (hN : g.fNpar ≤ 1) : fillCorrMatrix Sqrt g r = some (g, r) := by
  unfold fillCorrMatrix
  rw [if_pos hN]

theorem fillCorrMatrix_noInit (Sqrt : α → α) (g : TMinuit α) (r : RooFitResult α)
    (hr : r.initPars = none) : fillCorrMatrix Sqrt g r = some (g, r) := by
  unfold fillCorrMatrix
  split
  · rfl
  · simp only [hr]

theorem reachableNoInit_inv (Sqrt : α → α) (r : RooFitResult α)
    (h : ReachableNoInit Sqrt r) :
    r.initPars = none ∧ r.corrMatrix = [] ∧ r.globalCorr = none := by
  induction h with
  | new minNLL edm => exact ⟨rfl, rfl, rfl⟩
  | setConst r list _ ih => exact ih
  | setFinal r list _ ih => exact ih
  | fill r r1 g g1 _ hf ih =>
    rw [fillCorrMatrix_noInit Sqrt g r ih.1] at hf
    cases hf
    exact ih

theorem correlationRow_noMatrix {β : Type} (r : RooFitResult β) (initPars : RooArgList β)
    (hr : r.initPars = some initPars) (hc : r.corrMatrix = []) (name : String) :
    r.correlationRow name = some none := by
  unfold RooFitResult.correlationRow
  simp only [hr, hc]
  cases initPars.find name with
  | none => rfl
  | some p => simp

theorem correlation_noMatrix {β : Type} [Zero β] (r : RooFitResult β) (initPars : RooArgList β)
    (hr : r.initPars = some initPars) (hc : r.corrMatrix = []) (a b : String) :
    r.correlation a b = some 0 := by
  unfold RooFitResult.correlation
  rw [correlationRow_noMatrix r initPars hr hc a]

theorem corrSpec_diag_entry (Sqrt : α → α) (V : List α) (N i : Nat)
    (hV : N * (N + 1) / 2 ≤ V.length) (hi1 : 1 ≤ i) (hi : i ≤ N) :
    ∃ x, V[diagIndex i - 1]? = some x ∧
      corrSpec Sqrt V i i = x / Sqrt (Fabs.fabs (x * x)) := by
  have h1 := diag_le hi
  have h2 := diag_pos hi1
  refine ⟨V.getD (diagIndex i - 1) 0, getElem?_eq_some_getD V _ 0 ?_, ?_⟩
  · unfold diagIndex
    omega
  · unfold corrSpec diagIndex
    rw [max_self, min_self, packed_diag]

end Reading

/-! ## Facts that need the laws of a field -/

section Field

variable {α : Type} [LinearOrderedField α]

theorem corrSpec_symm (Sqrt : α → α) (V : List α) (i j : Nat) :
    corrSpec Sqrt V i j = corrSpec Sqrt V j i := by
  unfold corrSpec
  rw [max_comm i j, min_comm i j, mul_comm (V.getD (i * (i + 1) / 2 - 1) 0)]

theorem corrSpec_diag (V : List ℝ) (i : Nat) (hpos : 0 < V.getD (i * (i + 1) / 2 - 1) 0) :
    corrSpec Real.sqrt V i i = 1 := by
  unfold corrSpec
  rw [max_self, min_self, packed_diag, fabs_eq_abs, abs_mul_self, Real.sqrt_mul_self (le_of_lt hpos)]
  exact div_self (ne_of_gt hpos)

end Field

theorem real_sqrt_36 : Real.sqrt 36 = 6 := by
  rw [show (36 : ℝ) = 6 * 6 by norm_num]
  exact Real.sqrt_mul_self (by norm_num)

theorem real_sqrt_64 : Real.sqrt 64 = 8 := by
  rw [show (64 : ℝ) = 8 * 8 by norm_num]
  exact Real.sqrt_mul_self (by norm_num)

theorem real_sqrt_144 : Real.sqrt 144 = 12 := by
  rw [show (144 : ℝ) = 12 * 12 by norm_num]
  exact Real.sqrt_mul_self (by norm_num)

theorem real_sqrt_16 : Real.sqrt 16 = 4 := by
  rw [show (16 : ℝ) = 4 * 4 by norm_num]
  exact Real.sqrt_mul_self (by norm_num)

theorem real_sqrt_81 : Real.sqrt 81 = 9 := by
  rw [show (81 : ℝ) = 9 * 9 by norm_num]
  exact Real.sqrt_mul_self (by norm_num)

theorem real_sqrt_256 : Real.sqrt 256 = 16 := by
  rw [show (256 : ℝ) = 16 * 16 by norm_num]
  exact Real.sqrt_mul_self (by norm_num)

/-- The coefficients of the example over the reals. -/
theorem example_corrSpec :
    corrSpec Real.sqrt (exampleMinuit ℝ).fVhmat 1 2 = 1 / 3 ∧
    corrSpec Real.sqrt (exampleMinuit ℝ).fVhmat 1 3 = 1 / 8 ∧
    corrSpec Real.sqrt (exampleMinuit ℝ).fVhmat 2 3 = 1 / 4 ∧
    corrSpec Real.sqrt (exampleMinuit ℝ).fVhmat 1 1 = 1 ∧
    corrSpec Real.sqrt (exampleMinuit ℝ).fVhmat 2 2 = 1 ∧
    corrSpec Real.sqrt (exampleMinuit ℝ).fVhmat 3 3 = 1 := by
  refine ⟨?_, ?_, ?_, ?_, ?_, ?_⟩ <;>
    norm_num [corrSpec, exampleMinuit, List.getD, fabs_eq_abs, real_sqrt_36, real_sqrt_64,
      real_sqrt_144, real_sqrt_16, real_sqrt_81, real_sqrt_256]

/-! ## The names of the holders survive the loops -/

section Shape

variable {α : Type} [Zero α] [Mul α] [Div α] [Fabs α]

theorem foldlM_preserves {σ β : Type} (f : σ → β → Option σ) (P : σ → Prop)
    (hf : ∀ s x s1, f s x = some s1 → P s → P s1) (xs : List β) (s s1 : σ)
    (h : xs.foldlM f s = some s1) (hs : P s) : P s1 := by
  induction xs generalizing s with
  | nil =>
    simp only [List.foldlM_nil, Option.pure_def, Option.some.injEq] at h
    exact h ▸ hs
  | cons x xs ih =>
    simp only [List.foldlM_cons, Option.bind_eq_bind] at h
    cases hx : f s x with
    | none => simp [hx] at h
    | some s2 =>
      simp only [hx, Option.some_bind] at h
      exact ih s2 h (hf s x s2 hx hs)

theorem sameButLine_refl {β : Type} (g : TMinuit β) : g.SameButLine g :=
  ⟨rfl, rfl, rfl, rfl, rfl, rfl⟩

theorem sameButLine_trans {β : Type} {g g1 g2 : TMinuit β} (h1 : g.SameButLine g1)
    (h2 : g1.SameButLine g2) : g.SameButLine g2 :=
  ⟨h2.1.trans h1.1, h2.2.1.trans h1.2.1, h2.2.2.1.trans h1.2.2.1,
    h2.2.2.2.1.trans h1.2.2.2.1, h2.2.2.2.2.1.trans h1.2.2.2.2.1,
    h2.2.2.2.2.2.trans h1.2.2.2.2.2⟩

theorem lineStep_frame {β : Type} [Mul β] [Div β] [Fabs β] (Sqrt : β → β) (i j : Nat) (g g1 : TMinuit β)
    (h : lineStep Sqrt i g j = some g1) : g.SameButLine g1 := by
  unfold lineStep at h
  simp only [] at h
  split at h
  · split at h
    · cases h
      exact ⟨rfl, rfl, rfl, rfl, rfl, by simp⟩
    · cases h
  · cases h

theorem rowStep_frame {β : Type} [Mul β] [Div β] [Fabs β] (Sqrt : β → β) (N : Nat)
    (st st1 : TMinuit β × RooArgList β × List (RooArgList β)) (i : Nat)
    (h : rowStep Sqrt N st i = some st1) : st.1.SameButLine st1.1 := by
  unfold rowStep at h
  cases h1 : st.1.fNexofi[i - 1]? with
  | none => simp [h1] at h
  | some ix =>
    simp only [h1] at h
    cases h2 : List.foldlM (lineStep Sqrt i) st.1 (List.range' 1 N) with
    | none => simp [h2] at h
    | some g =>
      simp only [h2] at h
      have hg : st.1.SameButLine g :=
        foldlM_preserves (lineStep Sqrt i) (fun x => st.1.SameButLine x)
          (fun s x s1 hs hp => sameButLine_trans hp (lineStep_frame Sqrt i x s s1 hs))
          _ st.1 g h2 (sameButLine_refl st.1)
      cases h3 : g.fGlobcc[i - 1]? with
      | none => simp [h3] at h
      | some gc =>
        simp only [h3] at h
        cases h4 : setValAt st.2.1.list (i - 1) gc with
        | none => simp [h4] at h
        | some gcl =>
          simp only [h4] at h
          cases h5 : st.2.2[i - 1]? with
          | none => simp [h5] at h
          | some row =>
            simp only [h5] at h
            cases h6 : List.foldlM (copyStep g) row (List.range' 1 N) with
            | none => simp [h6] at h
            | some row1 =>
              simp only [h6, Option.some.injEq] at h
              subst h
              exact hg

/-- Whenever `fillCorrMatrix` returns, the minimizer has changed in its scratch line at most
and the record in its matrix and its list of global correlations at most. -/
theorem fillCorrMatrix_frame (Sqrt : α → α) (g g1 : TMinuit α) (r r1 : RooFitResult α)
    (h : fillCorrMatrix Sqrt g r = some (g1, r1)) :
    g.SameButLine g1 ∧ r1.minNLL = r.minNLL ∧ r1.edm = r.edm ∧ r1.constPars = r.constPars ∧
      r1.initPars = r.initPars ∧ r1.finalPars = r.finalPars := by
  by_cases hN : g.fNpar ≤ 1
  · rw [fillCorrMatrix_skip Sqrt g r hN] at h
    cases h
    exact ⟨sameButLine_refl g, rfl, rfl, rfl, rfl, rfl⟩
  · cases hr : r.initPars with
    | none =>
      rw [fillCorrMatrix_noInit Sqrt g r hr] at h
      cases h
      exact ⟨sameButLine_refl g, rfl, rfl, rfl, hr, rfl⟩
    | some initPars =>
      unfold fillCorrMatrix at h
      rw [if_neg hN] at h
      simp only [hr] at h
      cases hl : List.foldlM (rowStep Sqrt g.fNpar.toNat)
          (g, (newHolders initPars).1, (newHolders initPars).2)
          (List.range' 1 g.fNpar.toNat) with
      | none => simp [hl] at h
      | some st =>
        obtain ⟨g2, gc, cm⟩ := st
        simp only [hl, Option.some.injEq, Prod.mk.injEq] at h
        obtain ⟨h1, h2⟩ := h
        subst h1
        subst h2
        have hp := foldlM_preserves (rowStep Sqrt g.fNpar.toNat)
          (fun st => g.SameButLine st.1)
          (fun s x s1 hs hp => sameButLine_trans hp (rowStep_frame Sqrt _ s s1 x hs))
          _ _ _ hl (sameButLine_refl g)
        exact ⟨hp, rfl, rfl, rfl, rfl, rfl⟩

theorem example_lineAfter :
    lineAfter Real.sqrt (exampleMinuit ℝ).fVhmat 3 3 (exampleMinuit ℝ).fMATUvline =
      [1 / 8, 1 / 4, 1] := by
  obtain ⟨_, e13, e23, _, _, e33⟩ := example_corrSpec
  rw [corrSpec_symm] at e13 e23
  apply List.ext_getElem?
  intro k
  unfold lineAfter
  rw [List.getElem?_mapIdx]
  match k with
  | 0 => simpa [exampleMinuit] using e13
  | 1 => simpa [exampleMinuit] using e23
  | 2 => simpa [exampleMinuit] using e33
  | k + 3 => simp [exampleMinuit]

end Shape

/-! ## Packed indices -/

section Packed

theorem lineStep_reads {α : Type} [Mul α] [Div α] [Fabs α] (Sqrt : α → α) (i j : Nat)
    (g : TMinuit α) :
    lineStep Sqrt i g j =
      match g.fVhmat[packedIndex (max i j) (min i j) - 1]?, g.fVhmat[diagIndex i - 1]?,
        g.fVhmat[diagIndex j - 1]? with
      | some vdex, some vdi, some vdj =>
        if j - 1 < g.fMATUvline.length then
          some { g with fMATUvline := g.fMATUvline.set (j - 1) (vdex / Sqrt (Fabs.fabs (vdi * vdj))) }
        else none
      | _, _, _ => none :=
  rfl

theorem lineStep_isSome {α : Type} [Zero α] [Mul α] [Div α] [Fabs α] (Sqrt : α → α) (g : TMinuit α)
    (N i j : Nat) (hV : N * (N + 1) / 2 ≤ g.fVhmat.length) (hU : N ≤ g.fMATUvline.length)
    (hi1 : 1 ≤ i) (hi : i ≤ N) (hj1 : 1 ≤ j) (hj : j ≤ N) :
    (lineStep Sqrt i g j).isSome = true := by
  obtain ⟨x, y, z, hx, hy, hz, _⟩ := corrSpec_entries Sqrt g.fVhmat N i j hV hi1 hi hj1 hj
  unfold lineStep
  simp only [hx, hy, hz]
  rw [if_pos (by omega)]
  rfl

theorem tri_mono {a b : Nat} (h : a ≤ b) : a * (a - 1) / 2 ≤ b * (b - 1) / 2 :=
  Nat.div_le_div_right (Nat.mul_le_mul h (Nat.sub_le_sub_right h 1))

theorem tri_succ (m : Nat) : (m + 1) * (m + 1 - 1) / 2 = m * (m - 1) / 2 + m := by
  rw [packed_diag, Nat.add_sub_cancel, Nat.mul_comm]

theorem packedIndex_lt_of_lt {m n m1 n1 : Nat} (hn : n ≤ m) (hn1 : 1 ≤ n1) (hlt : m < m1) :
    packedIndex m n < packedIndex m1 n1 := by
  unfold packedIndex
  have h1 : (m + 1) * (m + 1 - 1) / 2 ≤ m1 * (m1 - 1) / 2 := tri_mono hlt
  rw [tri_succ] at h1
  omega

theorem packedIndex_inj {m n m1 n1 : Nat} (hn1 : 1 ≤ n) (hn : n ≤ m) (hk1 : 1 ≤ n1)
    (hk : n1 ≤ m1) (h : packedIndex m n = packedIndex m1 n1) : m = m1 ∧ n = n1 := by
  rcases Nat.lt_trichotomy m m1 with hlt | heq | hgt
  · have := packedIndex_lt_of_lt hn hk1 hlt
    omega
  · subst heq
    unfold packedIndex at h
    exact ⟨rfl, by omega⟩
  · have := packedIndex_lt_of_lt hk hn1 hgt
    omega

theorem packedIndex_surj (N k : Nat) (hk1 : 1 ≤ k) (hk : k ≤ N * (N + 1) / 2) :
    ∃ m n, 1 ≤ n ∧ n ≤ m ∧ m ≤ N ∧ packedIndex m n = k := by
  induction N with
  | zero => simp at hk; omega
  | succ N ih =>
    by_cases h : k ≤ N * (N + 1) / 2
    · obtain ⟨m, n, h1, h2, h3, h4⟩ := ih h
      exact ⟨m, n, h1, h2, by omega, h4⟩
    · have e1 : (N + 1) * (N + 1 + 1) / 2 = (N + 1) * (N + 1 - 1) / 2 + (N + 1) :=
        (packed_diag (N + 1)).symm
      have e2 : (N + 1) * (N + 1 - 1) / 2 = N * (N + 1) / 2 := by
        rw [Nat.add_sub_cancel, Nat.mul_comm]
      refine ⟨N + 1, k - N * (N + 1) / 2, by omega, by omega, le_refl _, ?_⟩
      unfold packedIndex
      omega

theorem packedIndexInt_natCast (m n : Nat) :
    packedIndexInt (m : Int) (n : Int) = ((packedIndex m n : Nat) : Int) := by
  unfold packedIndexInt packedIndex
  cases m with
  | zero => simp
  | succ k =>
    have h : ((k + 1 : Nat) : Int) * (((k + 1 : Nat) : Int) - 1) =
        (((k + 1) * (k + 1 - 1) : Nat) : Int) := by
      push_cast
      simp
    rw [h, Int.tdiv_eq_ediv (Int.ofNat_nonneg _) (by decide)]
    norm_cast

theorem diagIndexInt_natCast (i : Nat) : diagIndexInt (i : Int) = ((diagIndex i : Nat) : Int) := by
  unfold diagIndexInt diagIndex
  have h : (i : Int) * ((i : Int) + 1) = ((i * (i + 1) : Nat) : Int) := by push_cast; rfl
  rw [h, Int.tdiv_eq_ediv (Int.ofNat_nonneg _) (by decide)]
  norm_cast

theorem real_coef_bound (x y z : ℝ) (hy : 0 < y) (hz : 0 < z) :
    (x ^ 2 ≤ y * z → -1 ≤ x / Real.sqrt |y * z| ∧ x / Real.sqrt |y * z| ≤ 1) ∧
    (x ^ 2 < y * z → -1 < x / Real.sqrt |y * z| ∧ x / Real.sqrt |y * z| < 1) := by
  have hyz : 0 < y * z := mul_pos hy hz
  rw [abs_of_pos hyz]
  have hs : 0 < Real.sqrt (y * z) := Real.sqrt_pos.2 hyz
  constructor
  · intro h
    have hx := abs_le.1 (Real.abs_le_sqrt h)
    constructor
    · rw [le_div_iff₀ hs]
      linarith [hx.1]
    · rw [div_le_one hs]
      exact hx.2
  · intro h
    have h1 : |x| < Real.sqrt (y * z) := by
      rw [← Real.sqrt_sq_eq_abs]
      exact Real.sqrt_lt_sqrt (sq_nonneg x) h
    have hx := abs_lt.1 h1
    constructor
    · rw [lt_div_iff₀ hs]
      linarith [hx.1]
    · rw [div_lt_one hs]
      exact hx.2

end Packed

/-! ## Exact arithmetic -/

section Exact

/-- Over the reals, after an extraction that passes both guards with `N ≥ 2` on a buffer whose
diagonal entries `V[k*(k+1)/2]` are positive, `correlation(name, name)` returns `1` for every
floating parameter and every diagonal entry of the stored matrix is `1`. -/
theorem self_correlation_one_real (g : TMinuit ℝ) (r : RooFitResult ℝ)
    (initPars : RooArgList ℝ) (N : Nat) (hN : 2 ≤ N) (hg : g.Adequate N)
    (hr : r.initPars = some initPars) (hL : initPars.list.length = N)
    (hpos : ∀ k, 1 ≤ k → k ≤ N → ∃ x, g.fVhmat[k * (k + 1) / 2 - 1]? = some x ∧ 0 < x) :
    ∃ g1 r1, fillCorrMatrix Real.sqrt g r = some (g1, r1) ∧
      (∀ i, 1 ≤ i → i ≤ N → coefAt r1.corrMatrix i i = some 1) ∧
      ∀ v, v ∈ initPars.list → r1.correlation v.name v.name = some 1 := by
  have hdiag : ∀ k, 1 ≤ k → k ≤ N → corrSpec Real.sqrt g.fVhmat k k = 1 := by
    intro k hk1 hk
    obtain ⟨x, hx, hx0⟩ := hpos k hk1 hk
    apply corrSpec_diag
    simp [List.getD, hx, hx0]
  refine ⟨_, _, fillCorrMatrix_eq Real.sqrt g r initPars N hN hg hr (le_of_eq hL.symm), ?_, ?_⟩
  · intro i hi1 hi
    have h := coefAt_after Real.sqrt g.fVhmat initPars N i i hi1 hi1 (by omega) (by omega)
    rw [if_pos ⟨hi, hi⟩, hdiag i hi1 hi] at h
    exact h
  · intro v hv
    cases hp : findPos v.name initPars.list with
    | none =>
      exact absurd (List.mem_map.2 ⟨v, hv, rfl⟩) (findPos_eq_none.1 hp)
    | some p =>
      have hpl := findPos_lt hp
      rw [correlation_after Real.sqrt g r initPars N hr v.name v.name p p hp hp,
        if_pos ⟨by omega, by omega⟩, hdiag (p + 1) (by omega) (by omega)]

/-- Over the reals, after an extraction that passes both guards, when the diagonal
entries `cov(i,i)` and `cov(j,j)` of the packed buffer are positive and
`cov(i,j)^2 ≤ cov(i,i) * cov(j,j)`, the coefficient stored at row `i`, column `j` lies in
`[-1, 1]`; when the inequality is strict it lies in `(-1, 1)`. -/
theorem coefficient_bounded_real (g : TMinuit ℝ) (r : RooFitResult ℝ)
    (initPars : RooArgList ℝ) (N : Nat) (hN : 2 ≤ N) (hg : g.Adequate N)
    (hr : r.initPars = some initPars) (hL : initPars.list.length = N) :
    ∃ g1 r1, fillCorrMatrix Real.sqrt g r = some (g1, r1) ∧
      ∀ i j, 1 ≤ i → i ≤ N → 1 ≤ j → j ≤ N →
        ∃ x y z c, g.fVhmat[packedIndex (max i j) (min i j) - 1]? = some x ∧
          g.fVhmat[diagIndex i - 1]? = some y ∧ g.fVhmat[diagIndex j - 1]? = some z ∧
          coefAt r1.corrMatrix i j = some c ∧
          (0 < y → 0 < z → x ^ 2 ≤ y * z → -1 ≤ c ∧ c ≤ 1) ∧
          (0 < y → 0 < z → x ^ 2 < y * z → -1 < c ∧ c < 1) := by
  refine ⟨_, _, fillCorrMatrix_eq Real.sqrt g r initPars N hN hg hr (le_of_eq hL.symm), ?_⟩
  intro i j hi1 hi hj1 hj
  obtain ⟨x, y, z, hx, hy, hz, hc⟩ :=
    corrSpec_entries Real.sqrt g.fVhmat N i j hg.2.2.1 hi1 hi hj1 hj
  have h := coefAt_after Real.sqrt g.fVhmat initPars N i j hi1 hj1 (by omega) (by omega)
  rw [if_pos ⟨hi, hj⟩, hc] at h
  exact ⟨x, y, z, _, hx, hy, hz, h, fun h1 h2 h3 => (real_coef_bound x y z h1 h2).1 h3,
    fun h1 h2 h3 => (real_coef_bound x y z h1 h2).2 h3⟩

end Exact

/-! ## Double arithmetic on the two packed buffers -/

section DoubleFacts

set_option maxRecDepth 4000

/-- Known values of the binary64 arithmetic: `1 * 1 = 1`, `1 / 3` rounded, the overflow of
twice the largest finite double, and the ties to even at half and three halves of the least
subnormal double. -/
theorem double_known_values :
    (1 : Double) * 1 = 1 ∧
    (1 : Double) / Double.fin false (3 * 2 ^ 51) (-51) =
      Double.fin false 6004799503160661 (-54) ∧
    Double.fin false (2 ^ 53 - 1) 971 * Double.pow2 1 = Double.inf false ∧
    Double.fin false 1 (-1074) / Double.pow2 1 = 0 ∧
    Double.fin false 3 (-1074) / Double.pow2 1 = Double.fin false 2 (-1074) ∧
    Double.fin true 1 (-1074) / Double.pow2 1 = Double.fin true 0 (-1074) := by
  decide

theorem sqrt_four_aux : Nat.sqrt (2 ^ 52 * 2 ^ Int.toNat (112 + (2 - 52) % 2)) = 2 ^ 82 := by
  have e : Int.toNat (112 + (2 - 52) % 2) = 112 := by decide
  rw [e, show 2 ^ 52 * 2 ^ 112 = 2 ^ 82 * 2 ^ 82 by norm_num]
  exact Nat.sqrt_eq _

theorem sqrt_two_aux :
    Nat.sqrt (2 ^ 52 * 2 ^ Int.toNat (112 + (1 - 52) % 2)) = 6838717160008073720548332 := by
  have e : Int.toNat (112 + (1 - 52) % 2) = 113 := by decide
  rw [e]
  exact (Nat.eq_sqrt.2 ⟨by norm_num, by norm_num⟩).symm

/-- Known values of the binary64 square root: `sqrt 4 = 2`, exact, and `sqrt 2` rounded. -/
theorem double_known_roots :
    Double.sqrt (Double.pow2 2) = Double.pow2 1 ∧
    Double.sqrt (Double.pow2 1) = Double.fin false 6369051672525773 (-52) := by
  constructor
  · unfold Double.sqrt Double.pow2
    simp only [sqrt_four_aux]
    decide
  · unfold Double.sqrt Double.pow2
    simp only [sqrt_two_aux]
    decide

theorem overflow_product :
    Double.pow2 600 * Double.pow2 600 = Double.inf false := by decide

theorem overflow_corrSpec : corrSpec Double.sqrt overflowMinuit.fVhmat 1 1 = 0 := by decide

theorem underflow_product :
    Double.pow2 (-600) * Double.pow2 (-600) = 0 := by decide

theorem underflow_corrSpec :
    corrSpec Double.sqrt underflowMinuit.fVhmat 1 2 = Double.inf false := by decide

theorem underflow_corrSpec_diag :
    corrSpec Double.sqrt underflowMinuit.fVhmat 1 1 = Double.inf false := by decide

theorem double_zero_ne_one : (0 : Double) ≠ 1 := by decide

theorem overflow_values :
    overflowMinuit.fVhmat.map Double.toRat =
      [some ((2 : ℚ) ^ (600 : ℤ)), some ((2 : ℚ) ^ (599 : ℤ)), some ((2 : ℚ) ^ (600 : ℤ))] := by
  simp only [overflowMinuit, Double.pow2, Double.toRat, List.map_cons, List.map_nil]
  norm_num

theorem underflow_values :
    underflowMinuit.fVhmat.map Double.toRat =
      [some ((2 : ℚ) ^ (-600 : ℤ)), some ((2 : ℚ) ^ (-601 : ℤ)),
        some ((2 : ℚ) ^ (-600 : ℤ))] := by
  simp only [underflowMinuit, Double.pow2, Double.toRat, List.map_cons, List.map_nil]
  norm_num

theorem inf_not_inUnitInterval : ¬ (Double.inf false).InUnitInterval := by
  rintro ⟨q, hq, _⟩
  simp [Double.toRat] at hq

theorem overflow_adequate : overflowMinuit.Adequate 2 := by
  simp [TMinuit.Adequate, overflowMinuit]

theorem underflow_adequate : underflowMinuit.Adequate 2 := by
  simp [TMinuit.Adequate, underflowMinuit]

theorem twoInit_findPos : findPos "A" twoInit.list = some 0 := by
  simp [findPos, twoInit]

end DoubleFacts

/-! ## The claims -/

section Claims

variable {α : Type} [LinearOrderedField α]

/-- C1: after an extraction on a list of `N ≥ 2` distinctly named parameters, with a minimizer
that reports `N` floating parameters, `correlation(a, b)` for the names at positions `i`, `j`
(counted from 1) returns `V[m*(m-1)/2+n] / sqrt |V[i*(i+1)/2] * V[j*(j+1)/2]|` with
`m = max i j`, `n = min i j` and flat indices counted from 1. -/
theorem c1_correlation_formula (Sqrt : α → α) (g : TMinuit α) (r : RooFitResult α)
    (initPars : RooArgList α) (N : Nat) (hN : 2 ≤ N) (hg : g.Adequate N)
    (hr : r.initPars = some initPars) (hL : initPars.list.length = N)
    (hd : (initPars.list.map fun v => v.name).Nodup) :
    ∃ g1 r1, fillCorrMatrix Sqrt g r = some (g1, r1) ∧
      ∀ i j va vb, 1 ≤ i → 1 ≤ j → initPars.list[i - 1]? = some va →
        initPars.list[j - 1]? = some vb →
        ∃ x y z, g.fVhmat[max i j * (max i j - 1) / 2 + min i j - 1]? = some x ∧
          g.fVhmat[i * (i + 1) / 2 - 1]? = some y ∧ g.fVhmat[j * (j + 1) / 2 - 1]? = some z ∧
          r1.correlation va.name vb.name = some (x / Sqrt |y * z|) := by
  refine ⟨_, _, fillCorrMatrix_eq Sqrt g r initPars N hN hg hr (le_of_eq hL.symm), ?_⟩
  intro i j va vb hi1 hj1 hva hvb
  have hi : i - 1 < N := hL ▸ (List.getElem?_eq_some.1 hva).1
  have hj : j - 1 < N := hL ▸ (List.getElem?_eq_some.1 hvb).1
  obtain ⟨x, y, z, hx, hy, hz, hc⟩ :=
    corrSpec_entries Sqrt g.fVhmat N i j hg.2.2.1 hi1 (by omega) hj1 (by omega)
  refine ⟨x, y, z, hx, hy, hz, ?_⟩
  rw [correlation_after Sqrt g r initPars N hr va.name vb.name (i - 1) (j - 1)
    (findPos_nodup hd hva) (findPos_nodup hd hvb), if_pos ⟨hi, hj⟩]
  have e1 : i - 1 + 1 = i := by omega
  have e2 : j - 1 + 1 = j := by omega
  rw [e1, e2, hc, fabs_eq_abs]

/-- C1, the example of the spec over the reals: `A`, `B`, `C` with the packed covariance
`[4, 2, 9, 1, 3, 16]` give `1/3`, `1/8`, `1/4` and `1` on the diagonal. -/
theorem c1_correlation_formula_witness :
    2 ≤ 3 ∧ (exampleMinuit ℝ).Adequate 3 ∧
    (exampleRecord ℝ).initPars = some (exampleInit ℝ) ∧
    (exampleInit ℝ).list.length = 3 ∧
    ((exampleInit ℝ).list.map fun v => v.name).Nodup ∧
    ∃ g1 r1, fillCorrMatrix Real.sqrt (exampleMinuit ℝ) (exampleRecord ℝ) = some (g1, r1) ∧
      r1.correlation "A" "B" = some (1 / 3) ∧ r1.correlation "A" "C" = some (1 / 8) ∧
      r1.correlation "B" "C" = some (1 / 4) ∧ r1.correlation "A" "A" = some 1 ∧
      r1.correlation "B" "B" = some 1 ∧ r1.correlation "C" "C" = some 1 := by
  have hA : (exampleMinuit ℝ).Adequate 3 := by
    simp [TMinuit.Adequate, exampleMinuit]
  have hd : ((exampleInit ℝ).list.map fun v => v.name).Nodup := by
    simp [exampleInit]
  refine ⟨by decide, hA, rfl, rfl, hd, ?_⟩
  obtain ⟨g1, r1, hf, h⟩ :=
    c1_correlation_formula Real.sqrt (exampleMinuit ℝ) (exampleRecord ℝ) (exampleInit ℝ) 3
      (by decide) hA rfl rfl hd
  have key : ∀ i j va vb, 1 ≤ i → 1 ≤ j → (exampleInit ℝ).list[i - 1]? = some va →
      (exampleInit ℝ).list[j - 1]? = some vb → i ≤ 3 → j ≤ 3 →
      r1.correlation va.name vb.name =
        some (corrSpec Real.sqrt (exampleMinuit ℝ).fVhmat i j) := by
    intro i j va vb hi hj hva hvb hi3 hj3
    obtain ⟨x, y, z, hx, hy, hz, hc⟩ := h i j va vb hi hj hva hvb
    obtain ⟨x1, y1, z1, hx1, hy1, hz1, hc1⟩ :=
      corrSpec_entries Real.sqrt (exampleMinuit ℝ).fVhmat 3 i j (by simp [exampleMinuit])
        hi hi3 hj hj3
    rw [hx] at hx1
    rw [hy] at hy1
    rw [hz] at hz1
    cases hx1
    cases hy1
    cases hz1
    rw [hc, hc1, fabs_eq_abs]
  obtain ⟨e12, e13, e23, e11, e22, e33⟩ := example_corrSpec
  refine ⟨g1, r1, hf, ?_, ?_, ?_, ?_, ?_, ?_⟩
  · rw [← e12]
    exact key 1 2 ⟨"A", "a", 0⟩ ⟨"B", "b", 0⟩ (by decide) (by decide) rfl rfl (by decide)
      (by decide)
  · rw [← e13]
    exact key 1 3 ⟨"A", "a", 0⟩ ⟨"C", "c", 0⟩ (by decide) (by decide) rfl rfl (by decide)
      (by decide)
  · rw [← e23]
    exact key 2 3 ⟨"B", "b", 0⟩ ⟨"C", "c", 0⟩ (by decide) (by decide) rfl rfl (by decide)
      (by decide)
  · rw [← e11]
    exact key 1 1 ⟨"A", "a", 0⟩ ⟨"A", "a", 0⟩ (by decide) (by decide) rfl rfl (by decide)
      (by decide)
  · rw [← e22]
    exact key 2 2 ⟨"B", "b", 0⟩ ⟨"B", "b", 0⟩ (by decide) (by decide) rfl rfl (by decide)
      (by decide)
  · rw [← e33]
    exact key 3 3 ⟨"C", "c", 0⟩ ⟨"C", "c", 0⟩ (by decide) (by decide) rfl rfl (by decide)
      (by decide)

/-- C2 as stated fails: with the permutation `[2, 1, 3]` the coefficient of the internal
parameters `(1, 3)` is `1/8`, and the position `(2, 3)` that the permutation assigns to them
holds `1/4`. -/
theorem c2_permutation_counterexample :
    ∃ g1 r1, fillCorrMatrix Real.sqrt (permutedMinuit ℝ) (exampleRecord ℝ) = some (g1, r1) ∧
      corrSpec Real.sqrt (permutedMinuit ℝ).fVhmat 1 3 = 1 / 8 ∧
      coefAt r1.corrMatrix 2 3 = some (1 / 4) ∧
      ¬ StoredViaPermutation Real.sqrt (permutedMinuit ℝ) r1.corrMatrix 1 3 := by
  have hA : (permutedMinuit ℝ).Adequate 3 := by
    simp [TMinuit.Adequate, permutedMinuit, exampleMinuit]
  obtain ⟨_, e13, e23, _, _, _⟩ := example_corrSpec
  have h23 : coefAt (recordAfter Real.sqrt (permutedMinuit ℝ) (exampleRecord ℝ)
      (exampleInit ℝ) 3).corrMatrix 2 3 = some (1 / 4) := by
    have h := coefAt_after Real.sqrt (permutedMinuit ℝ).fVhmat (exampleInit ℝ) 3 2 3
      (by decide) (by decide) (by decide) (by decide)
    rw [if_pos ⟨by decide, by decide⟩] at h
    rw [← e23]
    exact h
  refine ⟨_, _, fillCorrMatrix_eq Real.sqrt (permutedMinuit ℝ) (exampleRecord ℝ)
    (exampleInit ℝ) 3 (by decide) hA rfl (by decide), e13, h23, ?_⟩
  intro hc
  have h1 : (permutedMinuit ℝ).fNexofi.getD (1 - 1) 0 = 2 := rfl
  have h3 : (permutedMinuit ℝ).fNexofi.getD (3 - 1) 0 = 3 := rfl
  unfold StoredViaPermutation at hc
  rw [h1, h3] at hc
  have h2 : (2 : Int).toNat = 2 := rfl
  have h4 : (3 : Int).toNat = 3 := rfl
  rw [h2, h4, h23] at hc
  have e13b : corrSpec Real.sqrt (permutedMinuit ℝ).fVhmat 1 3 = 1 / 8 := e13
  rw [e13b] at hc
  norm_num at hc

/-- C2, amended: the coefficient of the internal parameters `i`, `j` is stored at row `i`,
column `j` of the matrix, the positions of the list that equal the internal indices; the
index permutation is read and not used, so any other permutation gives the same record. -/
theorem c2_stored_at_internal_position (Sqrt : α → α) (g : TMinuit α) (r : RooFitResult α)
    (initPars : RooArgList α) (N : Nat) (hN : 2 ≤ N) (hg : g.Adequate N)
    (hr : r.initPars = some initPars) (hL : initPars.list.length = N) :
    ∃ g1 r1, fillCorrMatrix Sqrt g r = some (g1, r1) ∧
      (∀ i j, 1 ≤ i → i ≤ N → 1 ≤ j → j ≤ N →
        coefAt r1.corrMatrix i j = some (corrSpec Sqrt g.fVhmat i j)) ∧
      ∀ perm : List Int, N ≤ perm.length →
        ∃ g2, fillCorrMatrix Sqrt { g with fNexofi := perm } r = some (g2, r1) := by
  refine ⟨_, _, fillCorrMatrix_eq Sqrt g r initPars N hN hg hr (le_of_eq hL.symm), ?_, ?_⟩
  · intro i j hi1 hi hj1 hj
    have h := coefAt_after Sqrt g.fVhmat initPars N i j hi1 hj1 (by omega) (by omega)
    rw [if_pos ⟨hi, hj⟩] at h
    exact h
  · intro perm hperm
    exact ⟨_, fillCorrMatrix_eq Sqrt { g with fNexofi := perm } r initPars N hN
      ⟨hg.1, hperm, hg.2.2.1, hg.2.2.2.1, hg.2.2.2.2⟩ hr (le_of_eq hL.symm)⟩

/-- C2, amended, on the example with the permutation `[2, 1, 3]`. -/
theorem c2_stored_at_internal_position_witness :
    2 ≤ 3 ∧ (permutedMinuit ℝ).Adequate 3 ∧
    (exampleRecord ℝ).initPars = some (exampleInit ℝ) ∧ (exampleInit ℝ).list.length = 3 ∧
    ∃ g1 r1, fillCorrMatrix Real.sqrt (permutedMinuit ℝ) (exampleRecord ℝ) = some (g1, r1) ∧
      (∀ i j, 1 ≤ i → i ≤ 3 → 1 ≤ j → j ≤ 3 →
        coefAt r1.corrMatrix i j = some (corrSpec Real.sqrt (permutedMinuit ℝ).fVhmat i j)) ∧
      ∀ perm : List Int, 3 ≤ perm.length →
        ∃ g2, fillCorrMatrix Real.sqrt { permutedMinuit ℝ with fNexofi := perm }
          (exampleRecord ℝ) = some (g2, r1) :=
  have hA : (permutedMinuit ℝ).Adequate 3 := by
    simp [TMinuit.Adequate, permutedMinuit, exampleMinuit]
  ⟨by decide, hA, rfl, rfl,
    c2_stored_at_internal_position Real.sqrt (permutedMinuit ℝ) (exampleRecord ℝ)
      (exampleInit ℝ) 3 (by decide) hA rfl rfl⟩

/-- C4 as stated fails in `Double_t` arithmetic: with the positive definite buffer
`[2^600, 2^599, 2^600]` the product `2^600 * 2^600` overflows to infinity, and the diagonal
coefficient and `correlation(A, A)` are `0`, not `1`. -/
theorem c4_overflow_counterexample :
    ∃ g1 r1, fillCorrMatrix Double.sqrt overflowMinuit twoRecord = some (g1, r1) ∧
      overflowMinuit.fVhmat.map Double.toRat =
        [some ((2 : ℚ) ^ (600 : ℤ)), some ((2 : ℚ) ^ (599 : ℤ)), some ((2 : ℚ) ^ (600 : ℤ))] ∧
      ((2 : ℚ) ^ (599 : ℤ)) ^ 2 < (2 : ℚ) ^ (600 : ℤ) * (2 : ℚ) ^ (600 : ℤ) ∧
      Double.pow2 600 * Double.pow2 600 = Double.inf false ∧
      coefAt r1.corrMatrix 1 1 = some 0 ∧ r1.correlation "A" "A" = some 0 ∧
      (0 : Double) ≠ 1 := by
  have h1 := fillCorrMatrix_eq Double.sqrt overflowMinuit twoRecord twoInit 2 (by decide)
    overflow_adequate rfl (by decide)
  have h2 := coefAt_after Double.sqrt overflowMinuit.fVhmat twoInit 2 1 1 (by decide)
    (by decide) (by decide) (by decide)
  rw [if_pos ⟨by decide, by decide⟩, overflow_corrSpec] at h2
  have h3 := correlation_after Double.sqrt overflowMinuit twoRecord twoInit 2 rfl "A" "A" 0 0
    twoInit_findPos twoInit_findPos
  rw [if_pos ⟨by decide, by decide⟩, overflow_corrSpec] at h3
  exact ⟨_, _, h1, overflow_values, by norm_num, overflow_product, h2, h3, double_zero_ne_one⟩

/-- C4, amended: after an extraction that passes both guards with `N ≥ 2`, the diagonal
coefficient `i` and `correlation(name, name)` are `V[d] / sqrt |V[d] * V[d]|` as the
arithmetic of `Double_t` evaluates it, `d = i*(i+1)/2` the flat index of the diagonal entry;
over the reals, where no product overflows or underflows, that is exactly `1` for every
positive `V[d]`. -/
theorem c4_self_correlation :
    (∀ (β : Type) [Zero β] [Mul β] [Div β] [Fabs β] (Sqrt : β → β) (g : TMinuit β)
        (r : RooFitResult β) (initPars : RooArgList β) (N : Nat),
      2 ≤ N → g.Adequate N → r.initPars = some initPars → initPars.list.length = N →
      ∃ g1 r1, fillCorrMatrix Sqrt g r = some (g1, r1) ∧
        (∀ i, 1 ≤ i → i ≤ N → ∃ x, g.fVhmat[diagIndex i - 1]? = some x ∧
          coefAt r1.corrMatrix i i = some (x / Sqrt (Fabs.fabs (x * x)))) ∧
        ∀ v, v ∈ initPars.list → ∃ i x, 1 ≤ i ∧ i ≤ N ∧
          g.fVhmat[diagIndex i - 1]? = some x ∧
          r1.correlation v.name v.name = some (x / Sqrt (Fabs.fabs (x * x)))) ∧
    ∀ (g : TMinuit ℝ) (r : RooFitResult ℝ) (initPars : RooArgList ℝ) (N : Nat),
      2 ≤ N → g.Adequate N → r.initPars = some initPars → initPars.list.length = N →
      (∀ k, 1 ≤ k → k ≤ N → ∃ x, g.fVhmat[k * (k + 1) / 2 - 1]? = some x ∧ 0 < x) →
      ∃ g1 r1, fillCorrMatrix Real.sqrt g r = some (g1, r1) ∧
        (∀ i, 1 ≤ i → i ≤ N → coefAt r1.corrMatrix i i = some 1) ∧
        ∀ v, v ∈ initPars.list → r1.correlation v.name v.name = some 1 := by
  constructor
  · intro β _ _ _ _ Sqrt g r initPars N hN hg hr hL
    refine ⟨_, _, fillCorrMatrix_eq Sqrt g r initPars N hN hg hr (le_of_eq hL.symm), ?_, ?_⟩
    · intro i hi1 hi
      obtain ⟨x, hx, hc⟩ := corrSpec_diag_entry Sqrt g.fVhmat N i hg.2.2.1 hi1 hi
      have h := coefAt_after Sqrt g.fVhmat initPars N i i hi1 hi1 (by omega) (by omega)
      rw [if_pos ⟨hi, hi⟩, hc] at h
      exact ⟨x, hx, h⟩
    · intro v hv
      cases hp : findPos v.name initPars.list with
      | none => exact absurd (List.mem_map.2 ⟨v, hv, rfl⟩) (findPos_eq_none.1 hp)
      | some p =>
        have hpl := findPos_lt hp
        obtain ⟨x, hx, hc⟩ :=
          corrSpec_diag_entry Sqrt g.fVhmat N (p + 1) hg.2.2.1 (by omega) (by omega)
        refine ⟨p + 1, x, by omega, by omega, hx, ?_⟩
        rw [correlation_after Sqrt g r initPars N hr v.name v.name p p hp hp,
          if_pos ⟨by omega, by omega⟩, hc]
  · intro g r initPars N hN hg hr hL hpos
    exact self_correlation_one_real g r initPars N hN hg hr hL hpos

/-- C4, amended, on the overflowing buffer in `Double_t` arithmetic and on the example of the
spec over the reals. -/
theorem c4_self_correlation_witness :
    (∃ g1 r1, fillCorrMatrix Double.sqrt overflowMinuit twoRecord = some (g1, r1) ∧
      ∀ i, 1 ≤ i → i ≤ 2 → ∃ x, overflowMinuit.fVhmat[diagIndex i - 1]? = some x ∧
        coefAt r1.corrMatrix i i = some (x / Double.sqrt (Fabs.fabs (x * x)))) ∧
    ∃ g1 r1, fillCorrMatrix Real.sqrt (exampleMinuit ℝ) (exampleRecord ℝ) = some (g1, r1) ∧
      (∀ i, 1 ≤ i → i ≤ 3 → coefAt r1.corrMatrix i i = some 1) ∧
      ∀ v, v ∈ (exampleInit ℝ).list → r1.correlation v.name v.name = some 1 := by
  have hA : (exampleMinuit ℝ).Adequate 3 := by
    simp [TMinuit.Adequate, exampleMinuit]
  have hpos : ∀ k, 1 ≤ k → k ≤ 3 →
      ∃ x, (exampleMinuit ℝ).fVhmat[k * (k + 1) / 2 - 1]? = some x ∧ 0 < x := by
    intro k hk1 hk
    have hk3 : k = 1 ∨ k = 2 ∨ k = 3 := by omega
    rcases hk3 with h | h | h
    · subst h
      exact ⟨4, rfl, by norm_num⟩
    · subst h
      exact ⟨9, rfl, by norm_num⟩
    · subst h
      exact ⟨16, rfl, by norm_num⟩
  obtain ⟨g1, r1, hf, hd, _⟩ := c4_self_correlation.1 Double Double.sqrt overflowMinuit
    twoRecord twoInit 2 (by decide) overflow_adequate rfl rfl
  exact ⟨⟨g1, r1, hf, hd⟩,
    c4_self_correlation.2 (exampleMinuit ℝ) (exampleRecord ℝ) (exampleInit ℝ) 3 (by decide) hA
      rfl rfl hpos⟩

/-- C5 as stated fails: a record that holds the data of an extraction with three parameters
still holds three rows and three global correlations after a call made while the minimizer
reports one floating parameter. -/
theorem c5_skip_keeps_earlier_data_counterexample :
    ∃ g1 r1 g2 r2,
      fillCorrMatrix Real.sqrt (exampleMinuit ℝ) (exampleRecord ℝ) = some (g1, r1) ∧
      fillCorrMatrix Real.sqrt { g1 with fNpar := 1 } r1 = some (g2, r2) ∧
      r2.corrMatrix.length = 3 ∧ ∃ gc, r2.globalCorr = some gc ∧ gc.list.length = 3 := by
  have hA : (exampleMinuit ℝ).Adequate 3 := by
    simp [TMinuit.Adequate, exampleMinuit]
  have h1 := fillCorrMatrix_eq Real.sqrt (exampleMinuit ℝ) (exampleRecord ℝ)
    (exampleInit ℝ) 3 (by decide) hA rfl (by decide)
  have h2 := fillCorrMatrix_skip Real.sqrt
    { ({ exampleMinuit ℝ with
          fMATUvline := lineAfter Real.sqrt (exampleMinuit ℝ).fVhmat 3 3
            (exampleMinuit ℝ).fMATUvline } : TMinuit ℝ) with fNpar := 1 }
    (recordAfter Real.sqrt (exampleMinuit ℝ) (exampleRecord ℝ) (exampleInit ℝ) 3) (by decide)
  have h3 : (recordAfter Real.sqrt (exampleMinuit ℝ) (exampleRecord ℝ)
      (exampleInit ℝ) 3).corrMatrix.length = 3 := by
    simp [recordAfter, corrMatrixAfter, exampleInit]
  have h4 : (globalCorrAfter (exampleMinuit ℝ).fGlobcc (exampleInit ℝ) 3).list.length = 3 := by
    simp [globalCorrAfter, exampleInit]
  exact ⟨_, _, _, _, h1, h2, h3, _, rfl, h4⟩

/-- C5, amended: a call of the extraction while the minimizer reports at most one floating
parameter returns normally and leaves the record and the minimizer as they were; the matrix
and the list of global correlations are empty afterwards when they were empty before. -/
theorem c5_skip_leaves_record (Sqrt : α → α) (g : TMinuit α) (r : RooFitResult α)
    (hN : g.fNpar ≤ 1) :
    fillCorrMatrix Sqrt g r = some (g, r) ∧
      (r.corrMatrix = [] → r.globalCorr = none →
        ∀ g1 r1, fillCorrMatrix Sqrt g r = some (g1, r1) →
          r1.corrMatrix = [] ∧ r1.globalCorr = none) := by
  have h : fillCorrMatrix Sqrt g r = some (g, r) := fillCorrMatrix_skip Sqrt g r hN
  refine ⟨h, ?_⟩
  intro hc hgc g1 r1 h1
  rw [h] at h1
  cases h1
  exact ⟨hc, hgc⟩

/-- C5, amended, on a new record and a minimizer with one floating parameter. -/
theorem c5_skip_leaves_record_witness :
    ({ exampleMinuit ℝ with fNpar := 1 } : TMinuit ℝ).fNpar ≤ 1 ∧
    fillCorrMatrix Real.sqrt { exampleMinuit ℝ with fNpar := 1 } (exampleRecord ℝ) =
      some ({ exampleMinuit ℝ with fNpar := 1 }, exampleRecord ℝ) ∧
    ((exampleRecord ℝ).corrMatrix = [] → (exampleRecord ℝ).globalCorr = none →
      ∀ g1 r1, fillCorrMatrix Real.sqrt { exampleMinuit ℝ with fNpar := 1 }
          (exampleRecord ℝ) = some (g1, r1) →
        r1.corrMatrix = [] ∧ r1.globalCorr = none) :=
  ⟨by decide,
    c5_skip_leaves_record Real.sqrt { exampleMinuit ℝ with fNpar := 1 } (exampleRecord ℝ)
      (by decide)⟩

/-- C8: on a record whose initial list is set, `correlation(nameA, nameB)` returns `0` and
does not fail whenever one of the two names is not the name of a floating parameter. -/
theorem c8_unknown_name_zero (r : RooFitResult α) (initPars : RooArgList α)
    (hr : r.initPars = some initPars) (a b : String)
    (h : a ∉ initPars.list.map (fun v => v.name) ∨ b ∉ initPars.list.map (fun v => v.name)) :
    r.correlation a b = some 0 :=
  correlation_unknown r initPars hr a b
    (h.imp findPos_eq_none.2 findPos_eq_none.2)

/-- C8 on the example: `Z` is not a floating parameter, `A` is one. -/
theorem c8_unknown_name_zero_witness :
    (exampleRecord ℝ).initPars = some (exampleInit ℝ) ∧
    ("Z" ∉ (exampleInit ℝ).list.map (fun v => v.name) ∨
      "A" ∉ (exampleInit ℝ).list.map (fun v => v.name)) ∧
    (exampleRecord ℝ).correlation "Z" "A" = some 0 :=
  have h : "Z" ∉ (exampleInit ℝ).list.map (fun v => v.name) ∨
      "A" ∉ (exampleInit ℝ).list.map (fun v => v.name) := Or.inl (by simp [exampleInit])
  ⟨rfl, h, c8_unknown_name_zero (exampleRecord ℝ) (exampleInit ℝ) rfl "Z" "A" h⟩

/-- C9: on a record whose initial list is set, `correlation(name)` for a name that is not a
floating parameter returns the absent row and leaves the record as it was; for the name of
the floating parameter at position `p` it returns the stored row `p` of the matrix. -/
theorem c9_row_lookup {β : Type} (r : RooFitResult β) (initPars : RooArgList β)
    (hr : r.initPars = some initPars) :
    (∀ name, name ∉ initPars.list.map (fun v => v.name) →
      r.correlationRowCall name = some (none, r)) ∧
    ∀ (p : Nat) (v : RooRealVar β), initPars.list[p]? = some v →
      (∀ (q : Nat) (w : RooRealVar β), q < p → initPars.list[q]? = some w → w.name ≠ v.name) →
      r.correlationRowCall v.name = some (r.corrMatrix[p]?, r) := by
  constructor
  · intro name hname
    simp [RooFitResult.correlationRowCall, RooFitResult.correlationRow, hr, RooArgList.find,
      findPos_eq_none.2 hname]
  · intro p v hp hfirst
    simp [RooFitResult.correlationRowCall, RooFitResult.correlationRow, hr, RooArgList.find,
      RooArgList.index, findPos_first hp hfirst]

/-- C9 on the example before any extraction. -/
theorem c9_row_lookup_witness :
    (exampleRecord ℝ).initPars = some (exampleInit ℝ) ∧
    (∀ name, name ∉ (exampleInit ℝ).list.map (fun v => v.name) →
      (exampleRecord ℝ).correlationRowCall name = some (none, exampleRecord ℝ)) ∧
    ∀ (p : Nat) (v : RooRealVar ℝ), (exampleInit ℝ).list[p]? = some v →
      (∀ (q : Nat) (w : RooRealVar ℝ), q < p → (exampleInit ℝ).list[q]? = some w →
        w.name ≠ v.name) →
      (exampleRecord ℝ).correlationRowCall v.name =
        some ((exampleRecord ℝ).corrMatrix[p]?, exampleRecord ℝ) :=
  ⟨rfl, c9_row_lookup (exampleRecord ℝ) (exampleInit ℝ) rfl⟩

/-- C10 as stated fails: with the permutation `[2, 1, 3]` the position `2` that the
permutation assigns to the internal parameter `1` holds `2/10`, the global correlation of the
internal parameter `2`, and not `1/10`. -/
theorem c10_global_permutation_counterexample :
    ∃ g1 r1 gc, fillCorrMatrix Real.sqrt (permutedMinuit ℝ) (exampleRecord ℝ) = some (g1, r1) ∧
      r1.globalCorr = some gc ∧ (permutedMinuit ℝ).fGlobcc[0]? = some (1 / 10) ∧
      (gc.list[1]?).map (fun v => v.val) = some (2 / 10) ∧
      ¬ GlobalViaPermutation (permutedMinuit ℝ) gc 1 := by
  have hA : (permutedMinuit ℝ).Adequate 3 := by
    simp [TMinuit.Adequate, permutedMinuit, exampleMinuit]
  have h1 := fillCorrMatrix_eq Real.sqrt (permutedMinuit ℝ) (exampleRecord ℝ)
    (exampleInit ℝ) 3 (by decide) hA rfl (by decide)
  have h2 : ((globalCorrAfter (permutedMinuit ℝ).fGlobcc (exampleInit ℝ) 3).list[1]?).map
      (fun v => v.val) = some (2 / 10) := by
    simp [globalCorrAfter, exampleInit, permutedMinuit, exampleMinuit, gcHolder]
  refine ⟨_, _, _, h1, rfl, rfl, h2, ?_⟩
  intro hc
  have e1 : ((permutedMinuit ℝ).fNexofi.getD (1 - 1) 0).toNat - 1 = 1 := rfl
  unfold GlobalViaPermutation at hc
  rw [e1, h2] at hc
  have e2 : (permutedMinuit ℝ).fGlobcc[1 - 1]? = some (1 / 10) := rfl
  rw [e2] at hc
  norm_num at hc

/-- C10, amended: after an extraction that passes both guards with `N ≥ 2`, the entry of the
list of global correlations at the position `i` of the list is the global correlation of the
internal parameter `i` as the minimizer holds it; the packed buffer and the index permutation
have no part in it. -/
theorem c10_global_verbatim (Sqrt : α → α) (g : TMinuit α) (r : RooFitResult α)
    (initPars : RooArgList α) (N : Nat) (hN : 2 ≤ N) (hg : g.Adequate N)
    (hr : r.initPars = some initPars) (hL : initPars.list.length = N) :
    ∃ g1 r1 gc, fillCorrMatrix Sqrt g r = some (g1, r1) ∧ r1.globalCorr = some gc ∧
      (∀ i, 1 ≤ i → i ≤ N → ∃ x, g.fGlobcc[i - 1]? = some x ∧
        (gc.list[i - 1]?).map (fun v => v.val) = some x) ∧
      ∀ (V : List α) (perm : List Int), N * (N + 1) / 2 ≤ V.length → N ≤ perm.length →
        ∃ g2 r2, fillCorrMatrix Sqrt { g with fVhmat := V, fNexofi := perm } r =
          some (g2, r2) ∧ r2.globalCorr = some gc := by
  refine ⟨_, _, _, fillCorrMatrix_eq Sqrt g r initPars N hN hg hr (le_of_eq hL.symm), rfl,
    ?_, ?_⟩
  · intro i hi1 hi
    have h1 : i - 1 < g.fGlobcc.length := by
      have := hg.2.2.2.1
      omega
    have h2 : i - 1 < initPars.list.length := by omega
    refine ⟨_, getElem?_eq_some_getD g.fGlobcc (i - 1) 0 h1, ?_⟩
    have h3 : i - 1 < N := by omega
    simp [globalCorrAfter, gcHolder, List.getElem?_eq_getElem h2, h3]
  · intro V perm hV hperm
    exact ⟨_, _, fillCorrMatrix_eq Sqrt { g with fVhmat := V, fNexofi := perm } r initPars N hN
      ⟨hg.1, hperm, hV, hg.2.2.2.1, hg.2.2.2.2⟩ hr (le_of_eq hL.symm), rfl⟩

/-- C10, amended, on the example with the permutation `[2, 1, 3]`. -/
theorem c10_global_verbatim_witness :
    2 ≤ 3 ∧ (permutedMinuit ℝ).Adequate 3 ∧
    (exampleRecord ℝ).initPars = some (exampleInit ℝ) ∧ (exampleInit ℝ).list.length = 3 ∧
    ∃ g1 r1 gc, fillCorrMatrix Real.sqrt (permutedMinuit ℝ) (exampleRecord ℝ) = some (g1, r1) ∧
      r1.globalCorr = some gc ∧
      (∀ i, 1 ≤ i → i ≤ 3 → ∃ x, (permutedMinuit ℝ).fGlobcc[i - 1]? = some x ∧
        (gc.list[i - 1]?).map (fun v => v.val) = some x) ∧
      ∀ (V : List ℝ) (perm : List Int), 3 * (3 + 1) / 2 ≤ V.length → 3 ≤ perm.length →
        ∃ g2 r2, fillCorrMatrix Real.sqrt { permutedMinuit ℝ with fVhmat := V, fNexofi := perm }
          (exampleRecord ℝ) = some (g2, r2) ∧ r2.globalCorr = some gc :=
  have hA : (permutedMinuit ℝ).Adequate 3 := by
    simp [TMinuit.Adequate, permutedMinuit, exampleMinuit]
  ⟨by decide, hA, rfl, rfl,
    c10_global_verbatim Real.sqrt (permutedMinuit ℝ) (exampleRecord ℝ) (exampleInit ℝ) 3
      (by decide) hA rfl rfl⟩

/-- C11: on a record reached from the constructor by `setConstParList`, `setFinalParList` and
extraction calls, the initial list never set, an extraction call returns for every count the
minimizer reports, `N ≥ 2` included; the matrix and the list of global correlations are empty
afterwards, and the record is the record before the call. -/
theorem c11_initial_list_not_set (Sqrt : α → α) (r : RooFitResult α)
    (hreach : ReachableNoInit Sqrt r) (g : TMinuit α) :
    ∃ g1 r1, fillCorrMatrix Sqrt g r = some (g1, r1) ∧ r1.corrMatrix = [] ∧
      r1.globalCorr = none ∧ r1 = r ∧ g1 = g := by
  have hinv := reachableNoInit_inv Sqrt r hreach
  exact ⟨g, r, fillCorrMatrix_noInit Sqrt g r hinv.1, hinv.2.1, hinv.2.2, rfl, rfl⟩

/-- C11 on a new record whose constant list is set, after one extraction call. -/
theorem c11_initial_list_not_set_witness :
    ReachableNoInit Real.sqrt ((RooFitResult.new (0 : ℝ) 0).setConstParList (exampleInit ℝ)) ∧
    2 ≤ (exampleMinuit ℝ).fNpar ∧
    ∃ g1 r1, fillCorrMatrix Real.sqrt (exampleMinuit ℝ)
        ((RooFitResult.new (0 : ℝ) 0).setConstParList (exampleInit ℝ)) = some (g1, r1) ∧
      r1.corrMatrix = [] ∧ r1.globalCorr = none ∧
      r1 = (RooFitResult.new (0 : ℝ) 0).setConstParList (exampleInit ℝ) ∧
      g1 = exampleMinuit ℝ :=
  have hreach : ReachableNoInit Real.sqrt
      ((RooFitResult.new (0 : ℝ) 0).setConstParList (exampleInit ℝ)) :=
    ReachableNoInit.setConst _ _ (ReachableNoInit.new 0 0)
  ⟨hreach, by decide,
    c11_initial_list_not_set Real.sqrt _ hreach (exampleMinuit ℝ)⟩

/-- C12: on a record whose initial list is set and whose matrix is empty, as a new record is,
an extraction call made with `N ≤ 1` returns, and afterwards `correlation(name)` returns the
absent row and `correlation(nameA, nameB)` returns `0` for all names, the names of floating
parameters and `nameA = nameB` included. -/
theorem c12_queries_after_skip (Sqrt : α → α) (g : TMinuit α) (r : RooFitResult α)
    (initPars : RooArgList α) (hr : r.initPars = some initPars) (hc : r.corrMatrix = [])
    (hN : g.fNpar ≤ 1) :
    ∃ g1 r1, fillCorrMatrix Sqrt g r = some (g1, r1) ∧
      (∀ name : String, r1.correlationRow name = some none) ∧
      ∀ a b : String, r1.correlation a b = some 0 :=
  ⟨g, r, fillCorrMatrix_skip Sqrt g r hN, correlationRow_noMatrix r initPars hr hc,
    correlation_noMatrix r initPars hr hc⟩

/-- C12 on a new record whose initial list is `A`, `B`, `C`, with one floating parameter
reported. -/
theorem c12_queries_after_skip_witness :
    (exampleRecord ℝ).initPars = some (exampleInit ℝ) ∧ (exampleRecord ℝ).corrMatrix = [] ∧
    ({ exampleMinuit ℝ with fNpar := 1 } : TMinuit ℝ).fNpar ≤ 1 ∧
    ∃ g1 r1, fillCorrMatrix Real.sqrt { exampleMinuit ℝ with fNpar := 1 } (exampleRecord ℝ) =
        some (g1, r1) ∧
      (∀ name : String, r1.correlationRow name = some none) ∧
      ∀ a b : String, r1.correlation a b = some 0 :=
  ⟨rfl, rfl, by decide,
    c12_queries_after_skip Real.sqrt { exampleMinuit ℝ with fNpar := 1 } (exampleRecord ℝ)
      (exampleInit ℝ) rfl rfl (by decide)⟩

/-- C13 as stated fails: the extraction on the example leaves the scratch line `fMATUvline`
of the minimizer as `[1/8, 1/4, 1]`, the coefficients of the last row, where it was
`[0, 0, 0]` before the call. -/
theorem c13_scratch_line_counterexample :
    ∃ g1 r1, fillCorrMatrix Real.sqrt (exampleMinuit ℝ) (exampleRecord ℝ) = some (g1, r1) ∧
      (exampleMinuit ℝ).fMATUvline = [0, 0, 0] ∧ g1.fMATUvline = [1 / 8, 1 / 4, 1] ∧
      g1 ≠ exampleMinuit ℝ := by
  have hA : (exampleMinuit ℝ).Adequate 3 := by
    simp [TMinuit.Adequate, exampleMinuit]
  have h1 := fillCorrMatrix_eq Real.sqrt (exampleMinuit ℝ) (exampleRecord ℝ)
    (exampleInit ℝ) 3 (by decide) hA rfl (by decide)
  refine ⟨_, _, h1, rfl, example_lineAfter, ?_⟩
  intro hc
  have h2 := congrArg (fun g : TMinuit ℝ => g.fMATUvline[2]?) hc
  simp only [example_lineAfter] at h2
  simp [exampleMinuit] at h2

/-- C13, amended: a call of the extraction that returns changes, besides the matrix and the
list of global correlations of the record, the scratch line `fMATUvline` of the minimizer at
most, which keeps its length; the three lists and the two scalars of the record and the
packed buffer, the index permutation, the global correlations and the counts of the minimizer
are the same after the call as before. The call returns when a guard fires and when the
buffers hold the floating parameters. -/
theorem c13_frame (Sqrt : α → α) (g : TMinuit α) (r : RooFitResult α) :
    ((g.fNpar ≤ 1 ∨ r.initPars = none ∨
        ∃ N initPars, r.initPars = some initPars ∧ g.Adequate N ∧ N ≤ initPars.list.length) →
      ∃ g1 r1, fillCorrMatrix Sqrt g r = some (g1, r1)) ∧
    ∀ g1 r1, fillCorrMatrix Sqrt g r = some (g1, r1) →
      r1.constPars = r.constPars ∧ r1.initPars = r.initPars ∧ r1.finalPars = r.finalPars ∧
      r1.minNLL = r.minNLL ∧ r1.edm = r.edm ∧
      g1.fVhmat = g.fVhmat ∧ g1.fNexofi = g.fNexofi ∧ g1.fGlobcc = g.fGlobcc ∧
      g1.fNpar = g.fNpar ∧ g1.fNpagwd = g.fNpagwd ∧
      g1.fMATUvline.length = g.fMATUvline.length := by
  constructor
  · intro h
    rcases h with h | h | ⟨N, initPars, hr, hA, hL⟩
    · exact ⟨_, _, fillCorrMatrix_skip Sqrt g r h⟩
    · exact ⟨_, _, fillCorrMatrix_noInit Sqrt g r h⟩
    · by_cases hN : g.fNpar ≤ 1
      · exact ⟨_, _, fillCorrMatrix_skip Sqrt g r hN⟩
      · have h2 : 2 ≤ N := by
          have := hA.1
          omega
        exact ⟨_, _, fillCorrMatrix_eq Sqrt g r initPars N h2 hA hr hL⟩
  · intro g1 r1 h
    obtain ⟨hg, h1, h2, h3, h4, h5⟩ := fillCorrMatrix_frame Sqrt g g1 r r1 h
    exact ⟨h3, h4, h5, h1, h2, hg.2.2.2.1, hg.2.2.1, hg.2.2.2.2.1, hg.1, hg.2.1,
      hg.2.2.2.2.2⟩

/-- C13, amended, on the example of the spec: the call returns and every member but the
scratch line is kept. -/
theorem c13_frame_witness :
    ∃ g1 r1, fillCorrMatrix Real.sqrt (exampleMinuit ℝ) (exampleRecord ℝ) = some (g1, r1) ∧
      r1.initPars = (exampleRecord ℝ).initPars ∧ g1.fVhmat = (exampleMinuit ℝ).fVhmat ∧
      g1.fNexofi = (exampleMinuit ℝ).fNexofi ∧ g1.fGlobcc = (exampleMinuit ℝ).fGlobcc ∧
      g1.fMATUvline.length = (exampleMinuit ℝ).fMATUvline.length := by
  have hA : (exampleMinuit ℝ).Adequate 3 := by
    simp [TMinuit.Adequate, exampleMinuit]
  have h := c13_frame Real.sqrt (exampleMinuit ℝ) (exampleRecord ℝ)
  obtain ⟨g1, r1, hf⟩ := h.1 (Or.inr (Or.inr ⟨3, exampleInit ℝ, rfl, hA, by decide⟩))
  obtain ⟨_, h2, _, _, _, h6, h7, h8, _, _, h11⟩ := h.2 g1 r1 hf
  exact ⟨g1, r1, hf, h2, h6, h7, h8, h11⟩

/-- C14: each of the three setters stores a copy equal to its input in the list of its own
role and leaves the two other lists, the two scalars, the matrix and the list of global
correlations as they were; after two calls of one setter the record is the record after the
second call alone. -/
theorem c14_setters {β : Type} (r : RooFitResult β) (l l2 : RooArgList β) :
    ((r.setConstParList l).constPars = some l ∧
      (r.setConstParList l).initPars = r.initPars ∧
      (r.setConstParList l).finalPars = r.finalPars ∧
      (r.setConstParList l).minNLL = r.minNLL ∧ (r.setConstParList l).edm = r.edm ∧
      (r.setConstParList l).corrMatrix = r.corrMatrix ∧
      (r.setConstParList l).globalCorr = r.globalCorr ∧
      (r.setConstParList l).setConstParList l2 = r.setConstParList l2) ∧
    ((r.setInitParList l).initPars = some l ∧
      (r.setInitParList l).constPars = r.constPars ∧
      (r.setInitParList l).finalPars = r.finalPars ∧
      (r.setInitParList l).minNLL = r.minNLL ∧ (r.setInitParList l).edm = r.edm ∧
      (r.setInitParList l).corrMatrix = r.corrMatrix ∧
      (r.setInitParList l).globalCorr = r.globalCorr ∧
      (r.setInitParList l).setInitParList l2 = r.setInitParList l2) ∧
    ((r.setFinalParList l).finalPars = some l ∧
      (r.setFinalParList l).constPars = r.constPars ∧
      (r.setFinalParList l).initPars = r.initPars ∧
      (r.setFinalParList l).minNLL = r.minNLL ∧ (r.setFinalParList l).edm = r.edm ∧
      (r.setFinalParList l).corrMatrix = r.corrMatrix ∧
      (r.setFinalParList l).globalCorr = r.globalCorr ∧
      (r.setFinalParList l).setFinalParList l2 = r.setFinalParList l2) :=
  ⟨⟨rfl, rfl, rfl, rfl, rfl, rfl, rfl, rfl⟩, ⟨rfl, rfl, rfl, rfl, rfl, rfl, rfl, rfl⟩,
    ⟨rfl, rfl, rfl, rfl, rfl, rfl, rfl, rfl⟩⟩

/-- C15: when the initial list has `N ≥ 2` entries, the minimizer reports `N` floating
parameters, the packed buffer has at least `N*(N+1)/2` entries and the permutation, the global
correlations and the scratch line have at least `N`, the extraction returns, so no access
leaves an array or meets an absent element; for all `i`, `j` in `1..N` the flat indices lie in
`1..N*(N+1)/2`, every read of the loop body finds its entry, and the body of the loop over
`j` returns for every scratch line of at least `N` entries. -/
theorem c15_index_safety (Sqrt : α → α) (g : TMinuit α) (r : RooFitResult α)
    (initPars : RooArgList α) (N : Nat) (hN : 2 ≤ N) (hg : g.Adequate N)
    (hr : r.initPars = some initPars) (hL : initPars.list.length = N) :
    (∃ g1 r1, fillCorrMatrix Sqrt g r = some (g1, r1)) ∧
    ∀ i j, 1 ≤ i → i ≤ N → 1 ≤ j → j ≤ N →
      1 ≤ packedIndex (max i j) (min i j) ∧
      packedIndex (max i j) (min i j) ≤ N * (N + 1) / 2 ∧
      1 ≤ diagIndex i ∧ diagIndex i ≤ N * (N + 1) / 2 ∧
      (g.fVhmat[packedIndex (max i j) (min i j) - 1]?).isSome = true ∧
      (g.fVhmat[diagIndex i - 1]?).isSome = true ∧
      (g.fNexofi[i - 1]?).isSome = true ∧ (g.fGlobcc[i - 1]?).isSome = true ∧
      (g.fMATUvline[j - 1]?).isSome = true ∧ (initPars.list[i - 1]?).isSome = true ∧
      ∀ U : List α, N ≤ U.length →
        (lineStep Sqrt i { g with fMATUvline := U } j).isSome = true := by
  obtain ⟨hpar, hX, hV, hG, hU⟩ := hg
  refine ⟨⟨_, _, fillCorrMatrix_eq Sqrt g r initPars N hN ⟨hpar, hX, hV, hG, hU⟩ hr
    (le_of_eq hL.symm)⟩, ?_⟩
  intro i j hi1 hi hj1 hj
  have h1 : packedIndex (max i j) (min i j) ≤ N * (N + 1) / 2 :=
    packed_le min_le_max (max_le hi hj)
  have h2 : 1 ≤ packedIndex (max i j) (min i j) := packed_pos (le_min hi1 hj1)
  have h3 : diagIndex i ≤ N * (N + 1) / 2 := diag_le hi
  have h4 : 1 ≤ diagIndex i := diag_pos hi1
  have some_of_lt : ∀ {β : Type} (l : List β) (k : Nat), k < l.length →
      (l[k]?).isSome = true := by
    intro β l k hk
    rw [List.getElem?_eq_getElem hk]
    rfl
  refine ⟨h2, h1, h4, h3, some_of_lt _ _ (by omega), some_of_lt _ _ (by omega),
    some_of_lt _ _ (by omega), some_of_lt _ _ (by omega), some_of_lt _ _ (by omega),
    some_of_lt _ _ (by omega), ?_⟩
  intro U hUl
  exact lineStep_isSome Sqrt { g with fMATUvline := U } N i j hV hUl hi1 hi hj1 hj

/-- C15 on the example of the spec. -/
theorem c15_index_safety_witness :
    2 ≤ 3 ∧ (exampleMinuit ℝ).Adequate 3 ∧
    (exampleRecord ℝ).initPars = some (exampleInit ℝ) ∧ (exampleInit ℝ).list.length = 3 ∧
    (∃ g1 r1, fillCorrMatrix Real.sqrt (exampleMinuit ℝ) (exampleRecord ℝ) = some (g1, r1)) ∧
    ∀ i j, 1 ≤ i → i ≤ 3 → 1 ≤ j → j ≤ 3 →
      1 ≤ packedIndex (max i j) (min i j) ∧ packedIndex (max i j) (min i j) ≤ 3 * (3 + 1) / 2 :=
  have hA : (exampleMinuit ℝ).Adequate 3 := by
    simp [TMinuit.Adequate, exampleMinuit]
  have h := c15_index_safety Real.sqrt (exampleMinuit ℝ) (exampleRecord ℝ) (exampleInit ℝ) 3
    (by decide) hA rfl rfl
  ⟨by decide, hA, rfl, rfl, h.1, fun i j hi1 hi hj1 hj =>
    ⟨(h.2 i j hi1 hi hj1 hj).1, (h.2 i j hi1 hi hj1 hj).2.1⟩⟩

/-- C16: the diagonal index `i*(i+1)/2` is the packed index `m*(m-1)/2+n` at `m = n = i`, on
natural numbers and on integers with the truncating division of C; and on `1 ≤ n ≤ m ≤ N`
the packed index takes its values in `1..N*(N+1)/2`, takes no value twice and takes every
value. -/
theorem c16_packed_index (N : Nat) :
    (∀ i : Nat, 1 ≤ i → diagIndex i = packedIndex i i) ∧
    (∀ i : Int, 1 ≤ i → diagIndexInt i = packedIndexInt i i) ∧
    (∀ m n : Nat, packedIndexInt (m : Int) (n : Int) = ((packedIndex m n : Nat) : Int)) ∧
    (∀ m n, 1 ≤ n → n ≤ m → m ≤ N →
      1 ≤ packedIndex m n ∧ packedIndex m n ≤ N * (N + 1) / 2) ∧
    (∀ m n m1 n1, 1 ≤ n → n ≤ m → m ≤ N → 1 ≤ n1 → n1 ≤ m1 → m1 ≤ N →
      packedIndex m n = packedIndex m1 n1 → m = m1 ∧ n = n1) ∧
    ∀ k, 1 ≤ k → k ≤ N * (N + 1) / 2 →
      ∃ m n, 1 ≤ n ∧ n ≤ m ∧ m ≤ N ∧ packedIndex m n = k := by
  refine ⟨?_, ?_, packedIndexInt_natCast, ?_, ?_, packedIndex_surj N⟩
  · intro i _
    exact (packed_diag i).symm
  · intro i hi
    obtain ⟨n, rfl⟩ := Int.eq_ofNat_of_zero_le (by omega : 0 ≤ i)
    rw [diagIndexInt_natCast, packedIndexInt_natCast]
    exact congrArg _ (packed_diag n).symm
  · intro m n hn1 hn hm
    exact ⟨packed_pos hn1, packed_le hn hm⟩
  · intro m n m1 n1 hn1 hn _ hk1 hk _ h
    exact packedIndex_inj hn1 hn hk1 hk h

/-- C16 for three parameters: the six positions of the lower triangle fill `1..6`. -/
theorem c16_packed_index_witness :
    diagIndex 3 = packedIndex 3 3 ∧ diagIndexInt 3 = packedIndexInt 3 3 ∧
    [packedIndex 1 1, packedIndex 2 1, packedIndex 2 2, packedIndex 3 1, packedIndex 3 2,
      packedIndex 3 3] = [1, 2, 3, 4, 5, 6] ∧
    ∀ k, 1 ≤ k → k ≤ 3 * (3 + 1) / 2 → ∃ m n, 1 ≤ n ∧ n ≤ m ∧ m ≤ 3 ∧ packedIndex m n = k :=
  ⟨(c16_packed_index 3).1 3 (by decide), (c16_packed_index 3).2.1 3 (by decide), by decide,
    (c16_packed_index 3).2.2.2.2.2⟩

/-- C17 as stated fails in `Double_t` arithmetic: with the positive definite buffer
`[2^-600, 2^-601, 2^-600]` the diagonal entries are positive and
`cov(1,2)^2 < cov(1,1) * cov(2,2)`, the product `2^-600 * 2^-600` underflows to `0`, and the
coefficient stored at row 1, column 2 is infinite, outside `[-1, 1]`. -/
theorem c17_underflow_counterexample :
    ∃ g1 r1, fillCorrMatrix Double.sqrt underflowMinuit twoRecord = some (g1, r1) ∧
      underflowMinuit.fVhmat.map Double.toRat =
        [some ((2 : ℚ) ^ (-600 : ℤ)), some ((2 : ℚ) ^ (-601 : ℤ)),
          some ((2 : ℚ) ^ (-600 : ℤ))] ∧
      (0 : ℚ) < (2 : ℚ) ^ (-600 : ℤ) ∧
      ((2 : ℚ) ^ (-601 : ℤ)) ^ 2 < (2 : ℚ) ^ (-600 : ℤ) * (2 : ℚ) ^ (-600 : ℤ) ∧
      Double.pow2 (-600) * Double.pow2 (-600) = 0 ∧
      coefAt r1.corrMatrix 1 2 = some (Double.inf false) ∧
      ¬ (Double.inf false).InUnitInterval := by
  have h1 := fillCorrMatrix_eq Double.sqrt underflowMinuit twoRecord twoInit 2 (by decide)
    underflow_adequate rfl (by decide)
  have h2 := coefAt_after Double.sqrt underflowMinuit.fVhmat twoInit 2 1 2 (by decide)
    (by decide) (by decide) (by decide)
  rw [if_pos ⟨by decide, by decide⟩, underflow_corrSpec] at h2
  exact ⟨_, _, h1, underflow_values, by positivity, by norm_num, underflow_product, h2,
    inf_not_inUnitInterval⟩

/-- C17, amended: after an extraction that passes both guards with `N ≥ 2`, the coefficient
stored at row `i`, column `j` is `cov(i,j) / sqrt |cov(i,i) * cov(j,j)|` as the arithmetic of
`Double_t` evaluates it; over the reals, where no product overflows or underflows, it lies in
`[-1, 1]` when the diagonal entries are positive and `cov(i,j)^2 ≤ cov(i,i) * cov(j,j)`, and
in `(-1, 1)` when the inequality is strict. -/
theorem c17_coefficient :
    (∀ (β : Type) [Zero β] [Mul β] [Div β] [Fabs β] (Sqrt : β → β) (g : TMinuit β)
        (r : RooFitResult β) (initPars : RooArgList β) (N : Nat),
      2 ≤ N → g.Adequate N → r.initPars = some initPars → initPars.list.length = N →
      ∃ g1 r1, fillCorrMatrix Sqrt g r = some (g1, r1) ∧
        ∀ i j, 1 ≤ i → i ≤ N → 1 ≤ j → j ≤ N →
          ∃ x y z, g.fVhmat[packedIndex (max i j) (min i j) - 1]? = some x ∧
            g.fVhmat[diagIndex i - 1]? = some y ∧ g.fVhmat[diagIndex j - 1]? = some z ∧
            coefAt r1.corrMatrix i j = some (x / Sqrt (Fabs.fabs (y * z)))) ∧
    ∀ (g : TMinuit ℝ) (r : RooFitResult ℝ) (initPars : RooArgList ℝ) (N : Nat),
      2 ≤ N → g.Adequate N → r.initPars = some initPars → initPars.list.length = N →
      ∃ g1 r1, fillCorrMatrix Real.sqrt g r = some (g1, r1) ∧
        ∀ i j, 1 ≤ i → i ≤ N → 1 ≤ j → j ≤ N →
          ∃ x y z c, g.fVhmat[packedIndex (max i j) (min i j) - 1]? = some x ∧
            g.fVhmat[diagIndex i - 1]? = some y ∧ g.fVhmat[diagIndex j - 1]? = some z ∧
            coefAt r1.corrMatrix i j = some c ∧
            (0 < y → 0 < z → x ^ 2 ≤ y * z → -1 ≤ c ∧ c ≤ 1) ∧
            (0 < y → 0 < z → x ^ 2 < y * z → -1 < c ∧ c < 1) := by
  constructor
  · intro β _ _ _ _ Sqrt g r initPars N hN hg hr hL
    refine ⟨_, _, fillCorrMatrix_eq Sqrt g r initPars N hN hg hr (le_of_eq hL.symm), ?_⟩
    intro i j hi1 hi hj1 hj
    obtain ⟨x, y, z, hx, hy, hz, hc⟩ :=
      corrSpec_entries Sqrt g.fVhmat N i j hg.2.2.1 hi1 hi hj1 hj
    have h := coefAt_after Sqrt g.fVhmat initPars N i j hi1 hj1 (by omega) (by omega)
    rw [if_pos ⟨hi, hj⟩, hc] at h
    exact ⟨x, y, z, hx, hy, hz, h⟩
  · intro g r initPars N hN hg hr hL
    exact coefficient_bounded_real g r initPars N hN hg hr hL

/-- C17, amended, on the underflowing buffer in `Double_t` arithmetic and on the example of
the spec over the reals, where the coefficient at row 1, column 2 is `1/3`. -/
theorem c17_coefficient_witness :
    (∃ g1 r1, fillCorrMatrix Double.sqrt underflowMinuit twoRecord = some (g1, r1) ∧
      ∃ x y z, underflowMinuit.fVhmat[packedIndex (max 1 2) (min 1 2) - 1]? = some x ∧
        underflowMinuit.fVhmat[diagIndex 1 - 1]? = some y ∧
        underflowMinuit.fVhmat[diagIndex 2 - 1]? = some z ∧
        coefAt r1.corrMatrix 1 2 = some (x / Double.sqrt (Fabs.fabs (y * z)))) ∧
    ∃ g1 r1, fillCorrMatrix Real.sqrt (exampleMinuit ℝ) (exampleRecord ℝ) = some (g1, r1) ∧
      ∃ c, coefAt r1.corrMatrix 1 2 = some c ∧ -1 < c ∧ c < 1 := by
  have hA : (exampleMinuit ℝ).Adequate 3 := by
    simp [TMinuit.Adequate, exampleMinuit]
  obtain ⟨g1, r1, hf, h⟩ := c17_coefficient.1 Double Double.sqrt underflowMinuit twoRecord
    twoInit 2 (by decide) underflow_adequate rfl rfl
  obtain ⟨g2, r2, hf2, h2⟩ := c17_coefficient.2 (exampleMinuit ℝ) (exampleRecord ℝ)
    (exampleInit ℝ) 3 (by decide) hA rfl rfl
  obtain ⟨x, y, z, c, hx, hy, hz, hc, _, hlt⟩ := h2 1 2 (by decide) (by decide) (by decide)
    (by decide)
  have ex : (exampleMinuit ℝ).fVhmat[packedIndex (max 1 2) (min 1 2) - 1]? = some 2 := rfl
  have ey : (exampleMinuit ℝ).fVhmat[diagIndex 1 - 1]? = some 4 := rfl
  have ez : (exampleMinuit ℝ).fVhmat[diagIndex 2 - 1]? = some 9 := rfl
  rw [ex] at hx
  rw [ey] at hy
  rw [ez] at hz
  cases hx
  cases hy
  cases hz
  exact ⟨⟨g1, r1, hf, h 1 2 (by decide) (by decide) (by decide) (by decide)⟩,
    g2, r2, hf2, c, hc, hlt (by norm_num) (by norm_num) (by norm_num)⟩

end Claims

end RooFit
